import Mathlib

/-!
# Alkebuleum block explorer (`src/App.js`)

A shallow embedding of the search, fetch and formatting logic of the `App`
component, followed by theorems about it.

* JavaScript strings are lists of UTF-16 code units.
* The React state touched by the three fetch operations, the notices raised with
  `alert`, the `console.error` log and the JSON-RPC requests sent are fields of
  an explicit `World` record that every operation transforms.
* An `async` function returns a `Run`: the world it leaves behind and the error
  its promise rejects with, if any.
* The node is an input: every operation that issues a request receives the
  `Response` the transport produces for it.
* Numbers are doubles: integers rounded by `toDouble`, and in general a
  significand and a binary exponent, with division and `Number::toString`
  computed on natural numbers and integers.
-/

namespace Explorer

/-! ## Strings -/

/-- JavaScript strings: sequences of UTF-16 code units. -/
abbrev JSString := List Nat

/-- Code units of a literal. The literals of this development are in the Basic
Multilingual Plane, where a character is one code unit equal to its code point. -/
def js (s : String) : JSString := s.toList.map Char.toNat

/-- The `WhiteSpace` and `LineTerminator` code points of ECMAScript, which
`String.prototype.trim` and `parseInt` strip. -/
def isWhiteSpace (c : Nat) : Bool :=
  c == 0x09 || c == 0x0A || c == 0x0B || c == 0x0C || c == 0x0D || c == 0x20 ||
  c == 0xA0 || c == 0x1680 || (decide (0x2000 ≤ c) && decide (c ≤ 0x200A)) ||
  c == 0x2028 || c == 0x2029 || c == 0x202F || c == 0x205F || c == 0x3000 || c == 0xFEFF

/-- Leading white space removed. -/
def trimStart (s : JSString) : JSString := s.dropWhile isWhiteSpace

/-- Trailing white space removed. -/
def trimEnd (s : JSString) : JSString := (s.reverse.dropWhile isWhiteSpace).reverse

/-- The builtin `String.prototype.trim`. -/
def trim (s : JSString) : JSString := trimEnd (trimStart s)

/-- The builtin `String.prototype.toLowerCase` on Basic Latin: `A`-`Z` go to
`a`-`z`. Code units outside Basic Latin are left as they are here (the builtin
applies the Unicode case mapping to them); `handleSearch` takes the lowercasing
function as an argument, so that what is proved for every search string does not
depend on this choice. -/
def toLowerCase (s : JSString) : JSString :=
  s.map fun c => if 65 ≤ c ∧ c ≤ 90 then c + 32 else c

/-- The builtin `String.prototype.startsWith` (position 0). -/
def startsWith : JSString → JSString → Bool
  | _, [] => true
  | [], _ :: _ => false
  | c :: s, p :: ps => c == p && startsWith s ps

/-- A code unit in `0`-`9`. -/
def isDecimalDigit (c : Nat) : Bool := decide (48 ≤ c) && decide (c ≤ 57)

/-- The test `/^[0-9]+$/.test(s)`: one or more code units, all decimal digits. -/
def isNumeric (s : JSString) : Bool := !s.isEmpty && s.all isDecimalDigit

/-! ## Numbers: `parseInt` and `Number.prototype.toString` -/

/-- The Number values that `parseInt` can return: `NaN`, the two infinities and
the integer-valued finite doubles (`-0` is identified with `0`; both print as
`0`). -/
inductive Num where
  | nan
  | infinity (negative : Bool)
  | int (z : Int)
  deriving DecidableEq

/-- Value of a code unit as a digit: `0`-`9`, then `a`-`z` or `A`-`Z` for 10-35. -/
def digitValue (c : Nat) : Option Nat :=
  if 48 ≤ c ∧ c ≤ 57 then some (c - 48)
  else if 97 ≤ c ∧ c ≤ 122 then some (c - 87)
  else if 65 ≤ c ∧ c ≤ 90 then some (c - 55)
  else none

/-- A code unit that is a digit of the given radix. -/
def isRadixDigit (radix c : Nat) : Bool :=
  match digitValue c with
  | some d => decide (d < radix)
  | none => false

/-- Number of binary digits of `n`, by repeated halving (`fuel` bounds the
halvings; `n` itself is always enough). -/
def bitLengthAux : Nat → Nat → Nat
  | 0, _ => 0
  | fuel + 1, n => if n = 0 then 0 else bitLengthAux fuel (n / 2) + 1

/-- Number of binary digits of `n`. -/
def bitLength (n : Nat) : Nat := bitLengthAux n n

/-- The double nearest to the natural number `n` (round to nearest, ties to
even, 53-bit significand), or `none` when that is `Infinity`, which is when the
rounded value needs more than 1024 binary digits. Below `2^53` every integer is
a double. -/
def toDouble (n : Nat) : Option Nat :=
  if n < 2 ^ 53 then some n
  else
    let e := bitLength n - 53
    let q := n / 2 ^ e
    let r := n % 2 ^ e
    let q' := if 2 ^ e < 2 * r ∨ (2 * r = 2 ^ e ∧ q % 2 = 1) then q + 1 else q
    let v := q' * 2 ^ e
    if bitLength v ≤ 1024 then some v else none

/-- The builtin `parseInt(string, radix)` on a string argument, following the
steps of ECMAScript: strip leading white space, take the sign, settle the radix
(`radix = 0` stands for an absent radix) and the `0x` marker, read the longest
run of digits, and convert the integer read to a Number. The integer is taken
exactly before rounding. -/
def parseInt (string : JSString) (radix : Nat) : Num :=
  let S := trimStart string
  let negative := S.head? == some 45
  let S := if S.head? == some 45 || S.head? == some 43 then S.tail else S
  if radix ≠ 0 ∧ (radix < 2 ∨ 36 < radix) then Num.nan
  else
    let strip := radix == 0 || radix == 16
    let R := if radix = 0 then 10 else radix
    let marked := strip && (startsWith S (js "0x") || startsWith S (js "0X"))
    let S := if marked then S.drop 2 else S
    let R := if marked then 16 else R
    let Z := S.takeWhile (isRadixDigit R)
    if Z.isEmpty then Num.nan
    else
      let mathInt := Z.foldl (fun acc c => acc * R + (digitValue c).getD 0) 0
      match toDouble mathInt with
      | none => Num.infinity negative
      | some v => Num.int (if negative then -(v : Int) else (v : Int))

/-- Code unit of the digit `d`: `0`-`9`, then lowercase `a`-`z`. -/
def digitChar (d : Nat) : Nat := if d < 10 then 48 + d else 87 + d

/-- Digits of `n` in the given radix, most significant first, pushed in front
of `acc`; `fuel` bounds the number of digits. -/
def toDigitsAux (radix : Nat) : Nat → Nat → JSString → JSString
  | 0, _, acc => acc
  | fuel + 1, n, acc =>
    let acc' := digitChar (n % radix) :: acc
    if n / radix = 0 then acc' else toDigitsAux radix fuel (n / radix) acc'

/-- Numeral of the natural number `n` in the given radix (`"0"` for zero). -/
def natToString (radix n : Nat) : JSString := toDigitsAux radix (n + 1) n []

/-- The builtin `Number.prototype.toString(radix)` on the values of `Num`, for a
radix other than 10 (integers are printed digit by digit whatever their size). -/
def numberToString (x : Num) (radix : Nat) : JSString :=
  match x with
  | Num.nan => js "NaN"
  | Num.infinity false => js "Infinity"
  | Num.infinity true => js "-Infinity"
  | Num.int z => if z < 0 then 45 :: natToString radix z.natAbs else natToString radix z.natAbs

/-- The text a template literal produces for an integer-valued Number of
magnitude below `10^21` (`Number::toString` in radix 10): the plain decimal
numeral, with a minus sign when negative. -/
def templateNumber (z : Int) : JSString :=
  if z < 0 then 45 :: natToString 10 z.natAbs else natToString 10 z.natAbs

/-- The builtin `Math.floor`, on the exact value of its argument. -/
def mathFloor (x : ℚ) : Int := Int.floor x

/-! ## JSON values and the transport -/

/-- Values obtained from `response.json()`, and `undefined` for a property that
is absent. A number carries the exact value of its double. -/
inductive JSValue where
  | undefined
  | null
  | bool (b : Bool)
  | number (x : ℚ)
  | string (s : JSString)
  | array (items : List JSValue)
  | object (props : List (JSString × JSValue))

/-- JavaScript truthiness, as tested by `if (v)` and `v && ...`. -/
def JSValue.truthy : JSValue → Bool
  | JSValue.undefined => false
  | JSValue.null => false
  | JSValue.bool b => b
  | JSValue.number x => decide (x ≠ 0)
  | JSValue.string s => !s.isEmpty
  | JSValue.array _ => true
  | JSValue.object _ => true

/-- Message of the `TypeError` raised by reading a property of `null`. -/
def nullPropertyMessage : JSString := js "Cannot read properties of null (reading 'result')"

/-- Property lookup in the property list of an object. -/
def lookupProp (key : JSString) : List (JSString × JSValue) → JSValue
  | [] => JSValue.undefined
  | (k, v) :: rest => if k = key then v else lookupProp key rest

/-- The expression `data.result`: a `TypeError` on `null`, the property of an
object, `undefined` on every other value. -/
def getResult (data : JSValue) : Except JSString JSValue :=
  match data with
  | JSValue.null => Except.error nullPropertyMessage
  | JSValue.undefined => Except.error nullPropertyMessage
  | JSValue.object props => Except.ok (lookupProp (js "result") props)
  | _ => Except.ok JSValue.undefined

/-- A JSON-RPC request body: `method` and `params` (`jsonrpc` and `id` are
constant). -/
structure Request where
  method : JSString
  params : List JSValue

/-- What the transport gives back for one request: `fetch` rejects, or
`response.json()` rejects because the body is not JSON (both with the message of
the error), or the body parses to a value. -/
inductive Response where
  | rejected (message : JSString)
  | invalidJson (message : JSString)
  | json (data : JSValue)

/-! ## Application state -/

/-- The account balance held in the state: the Number
`parseInt(result, 16) / 1e18`, recorded by the `result` it is computed from
(`Balance.amount` computes the Number). -/
structure Balance where
  result : JSValue

/-- The three result fields of the React state. -/
structure Display where
  blockData : JSValue
  transactionData : JSValue
  accountBalance : Option Balance

/-- A line written with `console.error(label, error)`. -/
structure LogLine where
  label : JSString
  message : JSString

/-- Result fields together with everything the application has emitted. -/
structure World where
  display : Display
  alerts : List JSString
  console : List LogLine
  requests : List Request

/-- Initial state of the component: the three results are `null`. -/
def Display.initial : Display := ⟨JSValue.null, JSValue.null, none⟩

/-- World at start: initial display, nothing emitted. -/
def World.initial : World := ⟨Display.initial, [], [], []⟩

/-- Outcome of an `async` function: the world it leaves and, when its promise
rejects, the message of the error. -/
structure Run where
  world : World
  error : Option JSString

/-- The call `alert(message)`. -/
def alert (w : World) (message : JSString) : World :=
  { w with alerts := w.alerts ++ [message] }

/-- The call `console.error(label, error)`. -/
def consoleError (w : World) (label message : JSString) : World :=
  { w with console := w.console ++ [⟨label, message⟩] }

/-- The call `fetch(gethUrl, ...)` with the given body. -/
def send (w : World) (r : Request) : World :=
  { w with requests := w.requests ++ [r] }

/-! ## The fetch operations -/

/-- Request of `fetchAccountBalance`. -/
def fetchAccountBalanceRequest (address : JSString) : Request :=
  ⟨js "eth_getBalance", [JSValue.string address, JSValue.string (js "latest")]⟩

/-- Request of `fetchBlock`: the block number goes through `parseInt` and
`toString(16)`. -/
def fetchBlockRequest (blockNumber : JSString) : Request :=
  ⟨js "eth_getBlockByNumber",
    [JSValue.string (js "0x" ++ numberToString (parseInt blockNumber 0) 16), JSValue.bool true]⟩

/-- Request of `fetchTransaction`. -/
def fetchTransactionRequest (txHash : JSString) : Request :=
  ⟨js "eth_getTransactionByHash", [JSValue.string txHash]⟩

/-- Request of `fetchBlockByNumber`, whose argument is a Number. -/
def fetchBlockByNumberRequest (blockNumber : Num) : Request :=
  ⟨js "eth_getBlockByNumber",
    [JSValue.string (js "0x" ++ numberToString blockNumber 16), JSValue.bool true]⟩

/-- The function `fetchAccountBalance` (lines 86-111): every error is caught,
logged and raised as a notice, so the promise never rejects. -/
def fetchAccountBalance (w : World) (address : JSString) (resp : Response) : Run :=
  let w := send w (fetchAccountBalanceRequest address)
  let caught (message : JSString) : Run :=
    ⟨alert (consoleError w (js "Error fetching account balance:") message)
      (js "Error fetching account balance: " ++ message), none⟩
  match resp with
  | Response.rejected message => caught message
  | Response.invalidJson message => caught message
  | Response.json data =>
    match getResult data with
    | Except.error message => caught message
    | Except.ok result =>
      if result.truthy then
        ⟨{ w with display := ⟨JSValue.null, JSValue.null, some ⟨result⟩⟩ }, none⟩
      else
        ⟨alert w (js "Account not found or no balance available"), none⟩

/-- The function `fetchBlock` (lines 113-128): no `try`, so a transport error
rejects the promise; the result is stored whatever it is. -/
def fetchBlock (w : World) (blockNumber : JSString) (resp : Response) : Run :=
  let w := send w (fetchBlockRequest blockNumber)
  match resp with
  | Response.rejected message => ⟨w, some message⟩
  | Response.invalidJson message => ⟨w, some message⟩
  | Response.json data =>
    match getResult data with
    | Except.error message => ⟨w, some message⟩
    | Except.ok result =>
      ⟨{ w with display := ⟨result, JSValue.null, none⟩ }, none⟩

/-- The function `fetchTransaction` (lines 130-149): no `try`; a falsy result
raises the notice and leaves the state alone. -/
def fetchTransaction (w : World) (txHash : JSString) (resp : Response) : Run :=
  let w := send w (fetchTransactionRequest txHash)
  match resp with
  | Response.rejected message => ⟨w, some message⟩
  | Response.invalidJson message => ⟨w, some message⟩
  | Response.json data =>
    match getResult data with
    | Except.error message => ⟨w, some message⟩
    | Except.ok result =>
      if result.truthy then
        ⟨{ w with display := ⟨JSValue.null, result, none⟩ }, none⟩
      else
        ⟨alert w (js "Transaction not found"), none⟩

/-! ## Search and startup -/

/-- Notice raised for a search string of no recognised shape. -/
def invalidInputMessage : JSString :=
  js "Invalid input, please enter a valid block number, transaction hash, or address."

/-- The `catch` block of `handleSearch` (lines 80-83), applied to the outcome of
the `try` block: an error is logged and raised as a notice with its message. -/
def handleSearchCatch (r : Run) : World :=
  match r.error with
  | none => r.world
  | some message =>
    alert (consoleError r.world (js "Error in handleSearch:") message)
      (js "An error occurred: " ++ message)

/-- The function `handleSearch` (lines 62-84) on the search value held in the
state: the classification and the awaited fetch of the `try` block, then the
`catch` block. `toLower` is `String.prototype.toLowerCase`. -/
def handleSearch (toLower : JSString → JSString) (w : World) (searchValue : JSString)
    (resp : Response) : World :=
  let trimmedSearchValue := trim searchValue
  let isNum := isNumeric trimmedSearchValue
  handleSearchCatch
    (if !isNum then
      let normalizedSearchValue := toLower trimmedSearchValue
      if normalizedSearchValue.length == 42 && startsWith normalizedSearchValue (js "0x") then
        fetchAccountBalance w normalizedSearchValue resp
      else if normalizedSearchValue.length == 66 && startsWith normalizedSearchValue (js "0x") then
        fetchTransaction w normalizedSearchValue resp
      else
        ⟨alert w invalidInputMessage, none⟩
    else
      fetchBlock w trimmedSearchValue resp)

/-- Truthiness of a value returned by `URLSearchParams.get`: present and not
empty. -/
def paramGiven (p : Option JSString) : Bool :=
  match p with
  | some s => !s.isEmpty
  | none => false

/-- The URL-parameter part of the startup effect (lines 18-30): `tx`, then
`block`, then `address`. The fetch is called without `await` and without
`catch`, so an error its promise rejects with reaches no handler of the
application: only the world is kept. -/
def startupFetch (w : World) (txHash blockNumber address : Option JSString)
    (resp : Response) : World :=
  if paramGiven txHash then (fetchTransaction w (txHash.getD []) resp).world
  else if paramGiven blockNumber then (fetchBlock w (blockNumber.getD []) resp).world
  else if paramGiven address then (fetchAccountBalance w (address.getD []) resp).world
  else w

/-- The guard `transactionData && (...)` of the transaction summary (line 209). -/
def showsTransactionSummary (d : Display) : Bool := d.transactionData.truthy

/-! ## The latest-block footer -/

/-- The string `timeAgo` of `fetchLatestBlock` (lines 53-55) for an integer
number of seconds `diffInSeconds` in the safe-integer range (magnitude below
`2^53`). There the Number division `diffInSeconds / 60` followed by `Math.floor`
gives the floor of the exact quotient, and template literals print integers in
plain decimal. Outside that range Number arithmetic is not modelled: `none`. -/
def timeAgo (diffInSeconds : Int) : Option JSString :=
  if diffInSeconds.natAbs < 2 ^ 53 then
    some (if diffInSeconds < 60 then templateNumber diffInSeconds ++ js " secs ago"
      else templateNumber (mathFloor ((diffInSeconds : ℚ) / 60)) ++ js " mins ago")
  else none

/-! ## Sequences of fetches -/

/-- One completed fetch operation, with the response it received. -/
inductive Op where
  | fetchBlock (blockNumber : JSString) (resp : Response)
  | fetchTransaction (txHash : JSString) (resp : Response)
  | fetchAccountBalance (address : JSString) (resp : Response)

/-- World after one completed fetch (a rejected promise leaves its world). -/
def Op.run (w : World) : Op → World
  | Op.fetchBlock blockNumber resp => (Explorer.fetchBlock w blockNumber resp).world
  | Op.fetchTransaction txHash resp => (Explorer.fetchTransaction w txHash resp).world
  | Op.fetchAccountBalance address resp => (Explorer.fetchAccountBalance w address resp).world

/-- World after a sequence of completed fetches, in order of completion. -/
def runOps (w : World) (ops : List Op) : World := ops.foldl Op.run w

/-- Requests sent between world `w` and a later world `w'`. -/
def issued (w w' : World) : List Request := w'.requests.drop w.requests.length

/-- Notices raised between world `w` and a later world `w'`. -/
def raised (w w' : World) : List JSString := w'.alerts.drop w.alerts.length

/-! ## Vocabulary of the specification -/

/-- Mutual exclusion of the specification: at most one of the three results is
not `null`. -/
def AtMostOneResult (d : Display) : Prop :=
  (d.transactionData = JSValue.null ∧ d.accountBalance = none) ∨
  (d.blockData = JSValue.null ∧ d.accountBalance = none) ∨
  (d.blockData = JSValue.null ∧ d.transactionData = JSValue.null)

/-- The integer a string of decimal digits denotes. -/
def decimalValue (s : JSString) : Nat := Nat.ofDigits 10 (s.reverse.map fun c => c - 48)

/-- A code unit in `0`-`9` or `a`-`f`. -/
def isLowerHexDigit (c : Nat) : Bool :=
  (decide (48 ≤ c) && decide (c ≤ 57)) || (decide (97 ≤ c) && decide (c ≤ 102))

/-- A code unit in `0`-`9`, `a`-`f` or `A`-`F`. -/
def isHexDigit (c : Nat) : Bool :=
  isLowerHexDigit c || (decide (65 ≤ c) && decide (c ≤ 70))

/-- Value of a lowercase hexadecimal digit. -/
def lowerHexValue (c : Nat) : Nat := if c ≤ 57 then c - 48 else c - 87

/-- The string `h` is the minimal-width lowercase hexadecimal numeral of `n`, in
the words of the specification: lowercase hexadecimal digits, denoting `n`, with
no leading zero beyond the value itself (`"0"` for zero). -/
def MinimalLowerHex (h : JSString) (n : Nat) : Prop :=
  h ≠ [] ∧ (∀ c ∈ h, isLowerHexDigit c = true) ∧
  Nat.ofDigits 16 (h.reverse.map lowerHexValue) = n ∧
  (h.head? = some 48 → h = [48])

instance (h : JSString) (n : Nat) : Decidable (MinimalLowerHex h n) :=
  inferInstanceAs (Decidable (h ≠ [] ∧ (∀ c ∈ h, isLowerHexDigit c = true) ∧
    Nat.ofDigits 16 (h.reverse.map lowerHexValue) = n ∧ (h.head? = some 48 → h = [48])))

/-- The string `s` is `0x` followed by exactly `digits` hexadecimal digits. -/
def IsHexQuantity (digits : Nat) (s : JSString) : Prop :=
  s.length = digits + 2 ∧ startsWith s (js "0x") = true ∧ ∀ c ∈ s.drop 2, isHexDigit c = true

instance (digits : Nat) (s : JSString) : Decidable (IsHexQuantity digits s) :=
  inferInstanceAs (Decidable (s.length = digits + 2 ∧ startsWith s (js "0x") = true ∧
    ∀ c ∈ s.drop 2, isHexDigit c = true))

/-- Elapsed-time format in the words of the specification: `"{e} secs ago"`
below 60 and `"{e div 60} mins ago"` from 60 on, numbers in decimal. -/
def specTimeAgo (e : Int) : JSString :=
  if e < 60 then js (toString e ++ " secs ago") else js (toString (e / 60) ++ " mins ago")

/-! ## Numbers in general: division and `Number::toString` -/

/-- A Number: `NaN`, an infinity, or the finite double
`± mantissa * 2 ^ exponent` in canonical form: a mantissa in `[2^52, 2^53)` with
an exponent in `[-1074, 971]`, or a mantissa below `2^52` with exponent `-1074`
(the subnormals and zero). -/
inductive JSNumber where
  | nan
  | infinity (negative : Bool)
  | finite (negative : Bool) (mantissa : Nat) (exponent : Int)
  deriving DecidableEq

/-- Exact value of a finite Number. -/
def JSNumber.toRat : JSNumber → Option ℚ
  | JSNumber.finite negative mantissa exponent =>
    some ((if negative then -1 else 1) * (mantissa : ℚ) * (2 : ℚ) ^ exponent)
  | _ => none

/-- Exponent `e` with `2^e <= num / den < 2^(e+1)`, for positive `num` and `den`. -/
def floorLog2 (num den : Nat) : Int :=
  let e0 : Int := (bitLength num : Int) - (bitLength den : Int)
  if den * 2 ^ e0.toNat ≤ num * 2 ^ (-e0).toNat then e0 else e0 - 1

/-- The Number nearest to `± num / den` (`den` positive): round to nearest,
ties to even, with a 53-bit significand, gradual underflow below `2^-1022` and
overflow to an infinity from `2^1024`. -/
def roundNearest (negative : Bool) (num den : Nat) : JSNumber :=
  if num = 0 then JSNumber.finite negative 0 (-1074)
  else
    let e := floorLog2 num den
    let ex : Int := max (e - 52) (-1074)
    let N := num * 2 ^ (-ex).toNat
    let D := den * 2 ^ ex.toNat
    let q := N / D
    let r := N % D
    let m := if D < 2 * r ∨ (2 * r = D ∧ q % 2 = 1) then q + 1 else q
    if m = 2 ^ 53 then
      if ex + 1 ≤ 971 then JSNumber.finite negative (2 ^ 52) (ex + 1)
      else JSNumber.infinity negative
    else if ex ≤ 971 then JSNumber.finite negative m ex
    else JSNumber.infinity negative

/-- The Number held by a value of `Num` (an integer there is a double already). -/
def JSNumber.ofNum : Num → JSNumber
  | Num.nan => JSNumber.nan
  | Num.infinity negative => JSNumber.infinity negative
  | Num.int z => roundNearest (decide (z < 0)) z.natAbs 1

/-- The operator `/` on Numbers (IEEE 754 division). -/
def JSNumber.div : JSNumber → JSNumber → JSNumber
  | JSNumber.nan, _ => JSNumber.nan
  | _, JSNumber.nan => JSNumber.nan
  | JSNumber.infinity _, JSNumber.infinity _ => JSNumber.nan
  | JSNumber.infinity a, JSNumber.finite b _ _ => JSNumber.infinity (a != b)
  | JSNumber.finite a _ _, JSNumber.infinity b => JSNumber.finite (a != b) 0 (-1074)
  | JSNumber.finite a m e, JSNumber.finite b m' e' =>
    if m' = 0 then
      if m = 0 then JSNumber.nan else JSNumber.infinity (a != b)
    else
      roundNearest (a != b) (m * 2 ^ e.toNat * 2 ^ (-e').toNat)
        (m' * 2 ^ e'.toNat * 2 ^ (-e).toNat)

/-- The literal `1e18`. -/
def oneE18 : JSNumber := roundNearest false (10 ^ 18) 1

/-- Whether `xn / xd >= 10^p`. -/
def geTenPow (xn xd : Nat) (p : Int) : Bool :=
  decide (xd * 10 ^ p.toNat ≤ xn * 10 ^ (-p).toNat)

/-- Least `n >= p` with `xn / xd < 10^n`, looking at most `fuel` steps up. -/
def decimalExponentFrom (xn xd : Nat) : Nat → Int → Int
  | 0, p => p
  | fuel + 1, p => if geTenPow xn xd p then decimalExponentFrom xn xd fuel (p + 1) else p

/-- The `n` with `10^(n-1) <= xn / xd < 10^n`, for positive `xn` and `xd`; the
search starts from an estimate that is below `n` by at most five. -/
def decimalExponent (xn xd : Nat) : Int :=
  decimalExponentFrom xn xd 8
    ((((bitLength xn : Int) - (bitLength xd : Int)) * 30103) / 100000 - 2)

/-- A candidate decimal `s * 10^(n-k)` for the double `mantissa * 2^exponent`. -/
structure Decimal where
  s : Nat
  k : Nat
  n : Int
  deriving DecidableEq

/-- The two `k`-digit candidates with decimal exponent `n` around the value
`xn / xd`: its scaled floor and the next integer. -/
def candidatesAt (xn xd k : Nat) (n : Int) : List Decimal :=
  let lo := (xn * 10 ^ ((k : Int) - n).toNat) / (xd * 10 ^ (n - (k : Int)).toNat)
  [⟨lo, k, n⟩, ⟨lo + 1, k, n⟩]

/-- A candidate is admissible when it has exactly `k` digits and its value
rounds to the double. -/
def Decimal.admissible (mantissa : Nat) (exponent : Int) (d : Decimal) : Bool :=
  decide (10 ^ (d.k - 1) ≤ d.s) && decide (d.s < 10 ^ d.k) &&
  decide (roundNearest false (d.s * 10 ^ (d.n - (d.k : Int)).toNat)
    (10 ^ ((d.k : Int) - d.n).toNat) = JSNumber.finite false mantissa exponent)

/-- Distance from the candidate to `xn / xd`, as a fraction: numerator and
denominator. -/
def Decimal.distance (xn xd : Nat) (d : Decimal) : Nat × Nat :=
  let vn := d.s * 10 ^ (d.n - (d.k : Int)).toNat
  let vd := 10 ^ ((d.k : Int) - d.n).toNat
  ((((vn * xd : Nat) : Int) - ((xn * vd : Nat) : Int)).natAbs, vd * xd)

/-- The better of two candidates: the closer to `xn / xd`, the even one at
equal distance. -/
def Decimal.better (xn xd : Nat) (a b : Decimal) : Decimal :=
  let da := a.distance xn xd
  let db := b.distance xn xd
  if da.1 * db.2 < db.1 * da.2 then a
  else if db.1 * da.2 < da.1 * db.2 then b
  else if a.s % 2 = 0 then a else b

/-- The best admissible candidate with `k` digits, if there is one. -/
def bestAt (mantissa : Nat) (exponent : Int) (xn xd : Nat) (n0 : Int) (k : Nat) :
    Option Decimal :=
  let all := (candidatesAt xn xd k n0 ++ candidatesAt xn xd k (n0 + 1)).filter
    (Decimal.admissible mantissa exponent)
  match all with
  | [] => none
  | d :: rest => some (rest.foldl (Decimal.better xn xd) d)

/-- The shortest decimal that rounds to the double, trying `k`, `k + 1`, ... for
`fuel` lengths. -/
def shortestFrom (mantissa : Nat) (exponent : Int) (xn xd : Nat) (n0 : Int) :
    Nat → Nat → Option Decimal
  | 0, _ => none
  | fuel + 1, k =>
    match bestAt mantissa exponent xn xd n0 k with
    | some d => some d
    | none => shortestFrom mantissa exponent xn xd n0 fuel (k + 1)

/-- The integers `n`, `k`, `s` of `Number::toString` for the positive double
`mantissa * 2^exponent`: `k` as small as possible, `s * 10^(n-k)` rounding to
the double and closest to it. Seventeen digits always suffice, so the search
does not come back empty. -/
def shortestDecimal (mantissa : Nat) (exponent : Int) : Option Decimal :=
  let xn := mantissa * 2 ^ exponent.toNat
  let xd := 2 ^ (-exponent).toNat
  shortestFrom mantissa exponent xn xd (decimalExponent xn xd) 17 1

/-- The layout of `Number::toString` for the digits `s` (there are `k`) and
the decimal exponent `n`. -/
def Decimal.layout (d : Decimal) : JSString :=
  let digits := natToString 10 d.s
  if (d.k : Int) ≤ d.n ∧ d.n ≤ 21 then
    digits ++ List.replicate (d.n - (d.k : Int)).toNat 48
  else if 0 < d.n ∧ d.n ≤ 21 then
    digits.take d.n.toNat ++ [46] ++ digits.drop d.n.toNat
  else if -6 < d.n ∧ d.n ≤ 0 then
    js "0." ++ List.replicate (-d.n).toNat 48 ++ digits
  else
    let e := d.n - 1
    let tail := (if e < 0 then [101, 45] else [101, 43]) ++ natToString 10 e.natAbs
    if d.k = 1 then digits ++ tail
    else digits.take 1 ++ [46] ++ digits.drop 1 ++ tail

/-- The builtin `Number::toString` in radix 10, which string conversion and
React apply to a Number. -/
def JSNumber.toJSString : JSNumber → JSString
  | JSNumber.nan => js "NaN"
  | JSNumber.infinity false => js "Infinity"
  | JSNumber.infinity true => js "-Infinity"
  | JSNumber.finite negative mantissa exponent =>
    if mantissa = 0 then js "0"
    else
      match shortestDecimal mantissa exponent with
      | some d => (if negative then [45] else []) ++ d.layout
      | none => []

/-- The integer a string of hexadecimal digits (of either case) denotes. -/
def hexValue (h : JSString) : Nat :=
  Nat.ofDigits 16 (h.reverse.map fun c => (digitValue c).getD 0)

/-- The expression `parseInt(h, 16) / 1e18` of lines 100 and 215, on a string. -/
def weiToNative (h : JSString) : JSNumber :=
  (JSNumber.ofNum (parseInt h 16)).div oneE18

/-- The Number `parseInt(result, 16) / 1e18` held as account balance, when the
result is a string (another value is first converted to a string, which is not
modelled: `none`). -/
def Balance.amount (b : Balance) : Option JSNumber :=
  match b.result with
  | JSValue.string h => some (weiToNative h)
  | _ => none

/-- The text React puts after `Balance:` (line 223), when the balance card is
shown. -/
def balanceText (d : Display) : Option JSString :=
  match d.accountBalance with
  | some b => b.amount.map JSNumber.toJSString
  | none => none

/-- The text React puts after `Value:` (line 215) for a transaction whose
`value` is a string. -/
def valueText (d : Display) : Option JSString :=
  match d.transactionData with
  | JSValue.object props =>
    match lookupProp (js "value") props with
    | JSValue.string h => some (weiToNative h).toJSString
    | _ => none
  | _ => none

/-! ## Sample inputs -/

/-- A JSON-RPC response body whose `result` is `null`. -/
def nullResultBody : JSValue :=
  JSValue.object
    [(js "jsonrpc", JSValue.string (js "2.0")), (js "id", JSValue.number 1),
     (js "result", JSValue.null)]

/-- A well-formed transaction hash: `0x` and 64 hexadecimal digits. -/
def sampleHash : JSString := js "0x" ++ List.replicate 32 97 ++ List.replicate 32 49

/-- A string of the length and marker of an address, whose 40 other characters
are the letter `g`. -/
def sampleNotHex : JSString := js "0x" ++ List.replicate 40 103

/-- A well-formed address: `0x` and 40 hexadecimal digits. -/
def sampleAddress : JSString := js "0x" ++ List.replicate 40 97

/-- A JSON-RPC response body whose `result` is the string `h`. -/
def weiResultBody (h : JSString) : JSValue :=
  JSValue.object
    [(js "jsonrpc", JSValue.string (js "2.0")), (js "id", JSValue.number 1),
     (js "result", JSValue.string h)]

/-! ## Numerals -/

theorem js_append (a b : String) : js (a ++ b) = js a ++ js b := by
  simp [js]

theorem digitValue_digitChar (d : Nat) (h : d < 36) : digitValue (digitChar d) = some d := by
  unfold digitValue digitChar
  by_cases h10 : d < 10
  · rw [if_pos h10, if_pos (by omega)]
    congr 1
    omega
  · rw [if_neg h10, if_neg (by omega), if_pos (by omega)]
    congr 1
    omega

theorem isRadixDigit_digitChar (radix d : Nat) (h : d < radix) (hr : radix ≤ 36) :
    isRadixDigit radix (digitChar d) = true := by
  simp [isRadixDigit, digitValue_digitChar d (by omega), h]

/-- Digits produced by `toDigitsAux` are those of `Nat.digits`, most significant first. -/
theorem toDigitsAux_eq (radix : Nat) (hr : 1 < radix) :
    ∀ (fuel n : Nat) (acc : JSString), n < fuel → 0 < n →
      toDigitsAux radix fuel n acc = (Nat.digits radix n).reverse.map digitChar ++ acc := by
  intro fuel
  induction fuel with
  | zero => intro n acc h; omega
  | succ fuel ih =>
    intro n acc hlt hpos
    rw [Nat.digits_def' hr hpos]
    simp only [toDigitsAux, List.reverse_cons, List.map_append, List.map_cons, List.map_nil,
      List.append_assoc, List.singleton_append]
    by_cases hq : n / radix = 0
    · simp [hq]
    · rw [if_neg hq]
      have hlt2 : n / radix < n := Nat.div_lt_self hpos hr
      exact ih (n / radix) _ (by omega) (Nat.pos_of_ne_zero hq)

theorem natToString_pos (radix n : Nat) (hr : 1 < radix) (hn : 0 < n) :
    natToString radix n = (Nat.digits radix n).reverse.map digitChar := by
  unfold natToString
  rw [toDigitsAux_eq radix hr (n + 1) n [] (by omega) hn]
  simp

theorem natToString_zero (radix : Nat) : natToString radix 0 = [48] := by
  simp [natToString, toDigitsAux, digitChar]

/-- The fold of `parseInt` computes the value of the digits read. -/
theorem foldl_digits (R : Nat) (cs : JSString) :
    cs.foldl (fun acc c => acc * R + (digitValue c).getD 0) 0 =
      Nat.ofDigits R (cs.reverse.map fun c => (digitValue c).getD 0) := by
  induction cs using List.reverseRecOn with
  | nil => simp
  | append_singleton l c ih =>
    simp only [List.foldl_append, List.foldl_cons, List.foldl_nil, List.reverse_append,
      List.reverse_cons, List.reverse_nil, List.nil_append, List.singleton_append,
      List.map_cons, Nat.ofDigits_cons]
    rw [ih]
    ring

theorem takeWhile_all {α : Type} (p : α → Bool) (l : List α) (h : ∀ x ∈ l, p x = true) :
    l.takeWhile p = l := by
  induction l with
  | nil => rfl
  | cons a t ih =>
    have ha : p a = true := h a (List.mem_cons_self a t)
    simp [List.takeWhile_cons, ha, ih (fun x hx => h x (List.mem_cons_of_mem a hx))]


theorem js_0x : js "0x" = [48, 120] := by decide

theorem js_0X : js "0X" = [48, 88] := by decide

theorem natToString_digits (radix n : Nat) (hr : 1 < radix) (hr36 : radix ≤ 36) :
    natToString radix n ≠ [] ∧
    (∀ c ∈ natToString radix n, isRadixDigit radix c = true) ∧
    Nat.ofDigits radix ((natToString radix n).reverse.map fun c => (digitValue c).getD 0) = n := by
  rcases Nat.eq_zero_or_pos n with h0 | hpos
  · subst h0
    rw [natToString_zero]
    refine ⟨by simp, ?_, by simp [digitValue]⟩
    intro c hc
    simp only [List.mem_singleton] at hc
    subst hc
    have := isRadixDigit_digitChar radix 0 (by omega) hr36
    simpa [digitChar] using this
  · rw [natToString_pos radix n hr hpos]
    refine ⟨?_, ?_, ?_⟩
    · simp [Nat.digits_ne_nil_iff_ne_zero]
      omega
    · intro c hc
      simp only [List.mem_map, List.mem_reverse] at hc
      obtain ⟨d, hd, rfl⟩ := hc
      exact isRadixDigit_digitChar radix d (Nat.digits_lt_base hr hd) hr36
    · have hmap : ((Nat.digits radix n).reverse.map digitChar).reverse.map
          (fun c => (digitValue c).getD 0) = Nat.digits radix n := by
        rw [← List.map_reverse, List.reverse_reverse, List.map_map]
        conv_rhs => rw [← List.map_id (Nat.digits radix n)]
        apply List.map_congr_left
        intro d hd
        have hlt : d < radix := Nat.digits_lt_base hr hd
        simp [digitValue_digitChar d (by omega)]
      rw [hmap, Nat.ofDigits_digits]

theorem toDouble_small (n : Nat) (h : n < 2 ^ 53) : toDouble n = some n := by
  unfold toDouble
  rw [if_pos h]

theorem isWhiteSpace_digit (c : Nat) (h : (digitValue c).isSome = true) : isWhiteSpace c = false := by
  unfold digitValue at h
  unfold isWhiteSpace
  split_ifs at h <;> simp_all <;> omega

/-- Decoding with `parseInt(_, 16)` of `0x` followed by hexadecimal digits. -/
theorem parseInt_hex (h : JSString) (hne : h ≠ [])
    (hd : ∀ c ∈ h, isRadixDigit 16 c = true) :
    parseInt (js "0x" ++ h) 16 =
      match toDouble (Nat.ofDigits 16 (h.reverse.map fun c => (digitValue c).getD 0)) with
      | none => Num.infinity false
      | some v => Num.int (v : Int) := by
  have hZ : List.takeWhile (isRadixDigit 16) h = h := takeWhile_all _ _ hd
  have hne' : h.isEmpty = false := by cases h <;> simp_all
  simp [parseInt, js_0x, js_0X, trimStart, isWhiteSpace, startsWith, hZ, hne', foldl_digits]


theorem isNumeric_iff (s : JSString) :
    isNumeric s = true ↔ s ≠ [] ∧ ∀ c ∈ s, 48 ≤ c ∧ c ≤ 57 := by
  cases s <;> simp [isNumeric, isDecimalDigit]

theorem decimalValue_eq (s : JSString) (h : ∀ c ∈ s, 48 ≤ c ∧ c ≤ 57) :
    Nat.ofDigits 10 (s.reverse.map fun c => (digitValue c).getD 0) = decimalValue s := by
  unfold decimalValue
  congr 1
  apply List.map_congr_left
  intro c hc
  have := h c (List.mem_reverse.mp hc)
  simp [digitValue, this]

/-- The call `parseInt(S)` without radix on a string with no leading white space,
no sign and no `0x` marker, made of decimal digits only. -/
theorem parseInt_plain (S : JSString) (hne : S.isEmpty = false)
    (hws : trimStart S = S) (h45 : (S.head? == some 45) = false)
    (h43 : (S.head? == some 43) = false)
    (hx : startsWith S [48, 120] = false) (hX : startsWith S [48, 88] = false)
    (hZ : List.takeWhile (isRadixDigit 10) S = S) :
    parseInt S 0 =
      match toDouble (Nat.ofDigits 10 (S.reverse.map fun c => (digitValue c).getD 0)) with
      | none => Num.infinity false
      | some v => Num.int (v : Int) := by
  simp [parseInt, js_0x, js_0X, hws, h45, h43, hx, hX, hZ, hne, foldl_digits]

/-- The call `parseInt(s)` on a string of decimal digits: the double nearest to the
integer the digits denote. -/
theorem parseInt_numeric (s : JSString) (hs : isNumeric s = true) :
    parseInt s 0 =
      match toDouble (decimalValue s) with
      | none => Num.infinity false
      | some v => Num.int (v : Int) := by
  obtain ⟨hne, hd⟩ := (isNumeric_iff s).mp hs
  have hZ : List.takeWhile (isRadixDigit 10) s = s := by
    apply takeWhile_all
    intro c hc
    have := hd c hc
    simp [isRadixDigit, digitValue, this]
    omega
  rw [← decimalValue_eq s hd]
  apply parseInt_plain s _ _ _ _ _ _ hZ
  all_goals
    cases s with
    | nil => exact absurd rfl hne
    | cons c t =>
      have hc := hd c (List.mem_cons_self c t)
      have hws : isWhiteSpace c = false := isWhiteSpace_digit c (by simp [digitValue, hc])
      first
        | (simp [trimStart, hws]; done)
        | (simp; omega)
        | (cases t with
           | nil => simp [startsWith]
           | cons d t' =>
             have hdd := hd d (by simp)
             simp [startsWith]
             intro _
             omega)


theorem isLowerHexDigit_digitChar (d : Nat) (h : d < 16) : isLowerHexDigit (digitChar d) = true := by
  unfold isLowerHexDigit digitChar
  split_ifs <;> simp <;> omega

theorem lowerHexValue_digitChar (d : Nat) (h : d < 16) : lowerHexValue (digitChar d) = d := by
  unfold lowerHexValue digitChar
  split_ifs <;> omega

/-- The numeral printed by `toString(16)` is the minimal lowercase hexadecimal
numeral. -/
theorem natToString_minimal (n : Nat) : MinimalLowerHex (natToString 16 n) n := by
  rcases Nat.eq_zero_or_pos n with h0 | hpos
  · subst h0
    rw [natToString_zero]
    decide
  · rw [natToString_pos 16 n (by omega) hpos]
    have hne : Nat.digits 16 n ≠ [] := by
      rw [Ne, Nat.digits_eq_nil_iff_eq_zero]
      omega
    refine ⟨by simpa using hne, ?_, ?_, ?_⟩
    · intro c hc
      simp only [List.mem_map, List.mem_reverse] at hc
      obtain ⟨d, hd, rfl⟩ := hc
      exact isLowerHexDigit_digitChar d (Nat.digits_lt_base (by omega) hd)
    · have hmap : ((Nat.digits 16 n).reverse.map digitChar).reverse.map lowerHexValue
          = Nat.digits 16 n := by
        rw [← List.map_reverse, List.reverse_reverse, List.map_map]
        conv_rhs => rw [← List.map_id (Nat.digits 16 n)]
        apply List.map_congr_left
        intro d hd
        simp [lowerHexValue_digitChar d (Nat.digits_lt_base (by omega) hd)]
      rw [hmap, Nat.ofDigits_digits]
    · intro hhead
      exfalso
      have hlast := Nat.getLast_digit_ne_zero 16 (Nat.pos_iff_ne_zero.mp hpos)
      rw [List.head?_map, List.head?_reverse, List.getLast?_eq_getLast _ hne] at hhead
      simp only [Option.map_some', Option.some.injEq] at hhead
      have hlt : (Nat.digits 16 n).getLast hne < 16 :=
        Nat.digits_lt_base (by omega) (List.getLast_mem hne)
      unfold digitChar at hhead
      split_ifs at hhead <;> omega

theorem fetchBlock_requests (w : World) (blockNumber : JSString) (resp : Response) :
    (fetchBlock w blockNumber resp).world.requests = w.requests ++ [fetchBlockRequest blockNumber] := by
  unfold fetchBlock
  cases resp with
  | rejected m => rfl
  | invalidJson m => rfl
  | json data => cases hres : getResult data <;> simp [hres, send]

/-- C7. For every integer `n` with `0 <= n <= 2^53 - 1`, the block-number
parameter built from `n` (by `fetchBlockByNumber` from the Number `n`, and by
`fetchBlock` from any string of decimal digits denoting `n`), decoded with
`parseInt(_, 16)` as the block number returned by the node is, gives `n` back. -/
theorem block_number_round_trip (n : Nat) (hn : n ≤ 2 ^ 53 - 1) (s : JSString)
    (hs : isNumeric s = true) (hv : decimalValue s = n) :
    (∃ h, fetchBlockByNumberRequest (Num.int n) =
        ⟨js "eth_getBlockByNumber", [JSValue.string h, JSValue.bool true]⟩ ∧
      parseInt h 16 = Num.int n) ∧
    (∃ h, fetchBlockRequest s =
        ⟨js "eth_getBlockByNumber", [JSValue.string h, JSValue.bool true]⟩ ∧
      parseInt h 16 = Num.int n) := by
  have hlt : n < 2 ^ 53 := by omega
  obtain ⟨hne, hdig, hval⟩ := natToString_digits 16 n (by omega) (by omega)
  have hdec : parseInt (js "0x" ++ natToString 16 n) 16 = Num.int n := by
    rw [parseInt_hex _ hne hdig, hval, toDouble_small n hlt]
  have hnum : numberToString (Num.int (n : Int)) 16 = natToString 16 n := by
    simp [numberToString]
  refine ⟨⟨js "0x" ++ natToString 16 n, ?_, hdec⟩, ⟨js "0x" ++ natToString 16 n, ?_, hdec⟩⟩
  · simp only [fetchBlockByNumberRequest, hnum]
  · simp only [fetchBlockRequest, parseInt_numeric s hs, hv, toDouble_small n hlt, hnum]

theorem block_number_round_trip_witness :
    (255 : Nat) ≤ 2 ^ 53 - 1 ∧ isNumeric (js "255") = true ∧ decimalValue (js "255") = 255 ∧
    ((∃ h, fetchBlockByNumberRequest (Num.int (255 : Nat)) =
        ⟨js "eth_getBlockByNumber", [JSValue.string h, JSValue.bool true]⟩ ∧
      parseInt h 16 = Num.int (255 : Nat)) ∧
    (∃ h, fetchBlockRequest (js "255") =
        ⟨js "eth_getBlockByNumber", [JSValue.string h, JSValue.bool true]⟩ ∧
      parseInt h 16 = Num.int (255 : Nat))) :=
  ⟨by decide, by decide, by decide,
    block_number_round_trip 255 (by decide) (js "255") (by decide) (by decide)⟩

/-- C8, amended. For every string of decimal digits (leading zeros allowed)
denoting an integer `n` that is exactly a double (every `n < 2^53` is, by
`toDouble_small`), the request `fetchBlock` sends is `eth_getBlockByNumber` with
first parameter `0x` followed by the minimal-width lowercase hexadecimal numeral
of `n` (`0x0` for zero), and second parameter `true`. -/
theorem fetchBlock_param_minimal_hex (s : JSString) (hs : isNumeric s = true)
    (hn : toDouble (decimalValue s) = some (decimalValue s)) :
    (∀ (w : World) (resp : Response),
      (fetchBlock w s resp).world.requests = w.requests ++ [fetchBlockRequest s]) ∧
    ∃ h, fetchBlockRequest s =
        ⟨js "eth_getBlockByNumber", [JSValue.string (js "0x" ++ h), JSValue.bool true]⟩ ∧
      MinimalLowerHex h (decimalValue s) := by
  refine ⟨fun w resp => fetchBlock_requests w s resp,
    natToString 16 (decimalValue s), ?_, natToString_minimal _⟩
  simp [fetchBlockRequest, parseInt_numeric s hs, hn, numberToString]

theorem fetchBlock_param_minimal_hex_witness :
    isNumeric (js "0010") = true ∧
    toDouble (decimalValue (js "0010")) = some (decimalValue (js "0010")) ∧
    ((∀ (w : World) (resp : Response),
      (fetchBlock w (js "0010") resp).world.requests =
        w.requests ++ [fetchBlockRequest (js "0010")]) ∧
    ∃ h, fetchBlockRequest (js "0010") =
        ⟨js "eth_getBlockByNumber", [JSValue.string (js "0x" ++ h), JSValue.bool true]⟩ ∧
      MinimalLowerHex h (decimalValue (js "0010"))) :=
  ⟨by decide, by decide, fetchBlock_param_minimal_hex (js "0010") (by decide) (by decide)⟩

/-- The request `fetchBlock` sends for `10` and for `0`. -/
theorem fetchBlock_param_examples :
    fetchBlockRequest (js "10") =
      ⟨js "eth_getBlockByNumber", [JSValue.string (js "0xa"), JSValue.bool true]⟩ ∧
    fetchBlockRequest (js "000") =
      ⟨js "eth_getBlockByNumber", [JSValue.string (js "0x0"), JSValue.bool true]⟩ :=
  ⟨rfl, rfl⟩

/-- C8 as stated fails: the sixteen-digit string `9007199254740993` denotes
`2^53 + 1`, and `fetchBlock` sends `0x20000000000000`, the numeral of `2^53`. -/
theorem fetchBlock_param_rounds :
    isNumeric (js "9007199254740993") = true ∧
    decimalValue (js "9007199254740993") = 2 ^ 53 + 1 ∧
    fetchBlockRequest (js "9007199254740993") =
      ⟨js "eth_getBlockByNumber", [JSValue.string (js "0x" ++ js "20000000000000"), JSValue.bool true]⟩ ∧
    ¬ MinimalLowerHex (js "20000000000000") (decimalValue (js "9007199254740993")) :=
  ⟨by decide, by decide, rfl, by decide⟩


theorem digitChar_toNat (d : Nat) (h : d < 10) : (Nat.digitChar d).toNat = digitChar d := by
  interval_cases d <;> rfl

theorem toDigitsCore_map (fuel : Nat) :
    ∀ (n : Nat) (ds : List Char),
      (Nat.toDigitsCore 10 fuel n ds).map Char.toNat = toDigitsAux 10 fuel n (ds.map Char.toNat) := by
  induction fuel with
  | zero => intro n ds; rfl
  | succ fuel ih =>
    intro n ds
    simp only [Nat.toDigitsCore, toDigitsAux]
    by_cases hq : n / 10 = 0
    · simp [hq, digitChar_toNat (n % 10) (Nat.mod_lt _ (by omega))]
    · simp only [hq, if_false]
      rw [ih]
      simp [digitChar_toNat (n % 10) (Nat.mod_lt _ (by omega))]

/-- Decimal numerals of `natToString` are those of the standard `toString`. -/
theorem js_toString_nat (n : Nat) : js (toString n) = natToString 10 n := by
  have := toDigitsCore_map (n + 1) n []
  simpa [js, natToString, Nat.repr, Nat.toDigits, List.asString] using this

theorem js_toString_int (z : Int) :
    js (toString z) = if z < 0 then 45 :: natToString 10 z.natAbs else natToString 10 z.natAbs := by
  cases z with
  | ofNat n =>
    have h : ¬ (Int.ofNat n < 0) := by simp
    rw [if_neg h]
    exact js_toString_nat n
  | negSucc n =>
    have h : Int.negSucc n < 0 := Int.negSucc_lt_zero n
    rw [if_pos h]
    have : toString (Int.negSucc n) = "-" ++ toString (n + 1) := rfl
    rw [this, js_append, js_toString_nat]
    rfl

/-- The decimal string of `n` is a string of decimal digits denoting `n`. -/
theorem numeric_toString (n : Nat) :
    isNumeric (js (toString n)) = true ∧ decimalValue (js (toString n)) = n := by
  rw [js_toString_nat]
  obtain ⟨hne, hdig, hval⟩ := natToString_digits 10 n (by omega) (by omega)
  have hd : ∀ c ∈ natToString 10 n, 48 ≤ c ∧ c ≤ 57 := by
    intro c hc
    have h := hdig c hc
    unfold isRadixDigit digitValue at h
    split_ifs at h <;> first | assumption | (simp only [decide_eq_true_eq] at h; omega)
  exact ⟨(isNumeric_iff _).mpr ⟨hne, hd⟩, by rw [← decimalValue_eq _ hd, hval]⟩

theorem templateNumber_eq (z : Int) : templateNumber z = js (toString z) := by
  rw [js_toString_int]
  rfl

/-- C9. For every integer number of elapsed seconds `e` in the safe-integer
range (which holds every difference of two block or clock times), the string
built by `fetchLatestBlock` is `"{e} secs ago"` when `e < 60` and
`"{e div 60} mins ago"` (integer division, no further tier) when `e >= 60`. -/
theorem timeAgo_format (e : Int) (he : e.natAbs < 2 ^ 53) :
    timeAgo e = some (specTimeAgo e) := by
  unfold timeAgo specTimeAgo
  rw [if_pos he]
  by_cases h : e < 60
  · simp only [h, if_true, js_append, templateNumber_eq]
  · have hfl : mathFloor ((e : ℚ) / 60) = e / 60 := by
      unfold mathFloor
      exact_mod_cast Rat.floor_intCast_div_natCast e 60
    simp only [h, if_false, hfl, js_append, templateNumber_eq]

theorem timeAgo_format_witness :
    (Int.natAbs 45 < 2 ^ 53 ∧ timeAgo 45 = some (js "45 secs ago")) ∧
    (Int.natAbs 125 < 2 ^ 53 ∧ timeAgo 125 = some (js "2 mins ago")) :=
  ⟨⟨by decide, timeAgo_format 45 (by decide)⟩, ⟨by decide, timeAgo_format 125 (by decide)⟩⟩


/-! ## Worlds -/

theorem issued_append (w w' : World) (xs : List Request) (h : w'.requests = w.requests ++ xs) :
    issued w w' = xs := by
  simp [issued, h]

theorem raised_append (w w' : World) (xs : List JSString) (h : w'.alerts = w.alerts ++ xs) :
    raised w w' = xs := by
  simp [raised, h]

theorem fetchTransaction_requests (w : World) (txHash : JSString) (resp : Response) :
    (fetchTransaction w txHash resp).world.requests =
      w.requests ++ [fetchTransactionRequest txHash] := by
  unfold fetchTransaction
  cases resp with
  | rejected m => rfl
  | invalidJson m => rfl
  | json data =>
    cases hres : getResult data with
    | error m => simp [hres, send]
    | ok r => cases ht : r.truthy <;> simp [hres, ht, send, alert]

theorem fetchAccountBalance_requests (w : World) (address : JSString) (resp : Response) :
    (fetchAccountBalance w address resp).world.requests =
      w.requests ++ [fetchAccountBalanceRequest address] := by
  unfold fetchAccountBalance
  cases resp with
  | rejected m => rfl
  | invalidJson m => rfl
  | json data =>
    cases hres : getResult data with
    | error m => simp [hres, send, alert, consoleError]
    | ok r => cases ht : r.truthy <;> simp [hres, ht, send, alert]

theorem handleSearchCatch_requests (r : Run) : (handleSearchCatch r).requests = r.world.requests := by
  unfold handleSearchCatch
  cases r.error <;> rfl

/-- The search, with its three tests written as propositions. -/
theorem handleSearch_eq (toLower : JSString → JSString) (w : World)
    (searchValue : JSString) (resp : Response) :
    handleSearch toLower w searchValue resp = handleSearchCatch
      (if isNumeric (trim searchValue) = true then fetchBlock w (trim searchValue) resp
       else if (toLower (trim searchValue)).length = 42 ∧
          startsWith (toLower (trim searchValue)) (js "0x") = true then
        fetchAccountBalance w (toLower (trim searchValue)) resp
       else if (toLower (trim searchValue)).length = 66 ∧
          startsWith (toLower (trim searchValue)) (js "0x") = true then
        fetchTransaction w (toLower (trim searchValue)) resp
       else ⟨alert w invalidInputMessage, none⟩) := by
  unfold handleSearch
  by_cases hn : isNumeric (trim searchValue) = true
  · simp [hn]
  · simp only [hn, Bool.and_eq_true, beq_iff_eq, Bool.not_eq_true', Bool.not_eq_true, if_true,
      if_false]
    simp

/-- Requests sent by one search. -/
theorem handleSearch_requests (toLower : JSString → JSString) (w : World)
    (searchValue : JSString) (resp : Response) :
    (handleSearch toLower w searchValue resp).requests = w.requests ++
      (if isNumeric (trim searchValue) = true then [fetchBlockRequest (trim searchValue)]
       else if (toLower (trim searchValue)).length = 42 ∧
          startsWith (toLower (trim searchValue)) (js "0x") = true then
        [fetchAccountBalanceRequest (toLower (trim searchValue))]
       else if (toLower (trim searchValue)).length = 66 ∧
          startsWith (toLower (trim searchValue)) (js "0x") = true then
        [fetchTransactionRequest (toLower (trim searchValue))]
       else []) := by
  rw [handleSearch_eq, handleSearchCatch_requests]
  split_ifs
  · exact fetchBlock_requests _ _ _
  · exact fetchAccountBalance_requests _ _ _
  · exact fetchTransaction_requests _ _ _
  · simp [alert]


theorem invalidInputMessage_head : invalidInputMessage.head? = some 73 := by decide

theorem fetchBlock_alerts (w : World) (blockNumber : JSString) (resp : Response) :
    (fetchBlock w blockNumber resp).world.alerts = w.alerts := by
  unfold fetchBlock
  cases resp with
  | rejected m => rfl
  | invalidJson m => rfl
  | json data => cases hres : getResult data <;> simp [hres, send]

theorem fetchTransaction_alerts (w : World) (txHash : JSString) (resp : Response) :
    ∃ xs, (fetchTransaction w txHash resp).world.alerts = w.alerts ++ xs ∧
      ∀ a ∈ xs, a.head? ≠ some 73 := by
  unfold fetchTransaction
  cases resp with
  | rejected m => exact ⟨[], by simp [send], by simp⟩
  | invalidJson m => exact ⟨[], by simp [send], by simp⟩
  | json data =>
    cases hres : getResult data with
    | error m => exact ⟨[], by simp [hres, send], by simp⟩
    | ok r =>
      cases ht : r.truthy
      · refine ⟨[js "Transaction not found"], by simp [hres, ht, send, alert], ?_⟩
        intro a ha
        simp only [List.mem_singleton] at ha
        subst ha
        decide
      · exact ⟨[], by simp [hres, ht, send], by simp⟩

theorem fetchAccountBalance_alerts (w : World) (address : JSString) (resp : Response) :
    ∃ xs, (fetchAccountBalance w address resp).world.alerts = w.alerts ++ xs ∧
      ∀ a ∈ xs, a.head? ≠ some 73 := by
  have hcaught : ∀ m : JSString, ∀ a ∈ [js "Error fetching account balance: " ++ m],
      a.head? ≠ some 73 := by
    intro m a ha
    simp only [List.mem_singleton] at ha
    subst ha
    have : (js "Error fetching account balance: " ++ m).head? = some 69 := rfl
    rw [this]
    decide
  unfold fetchAccountBalance
  cases resp with
  | rejected m => exact ⟨_, by simp [send, alert, consoleError], hcaught m⟩
  | invalidJson m => exact ⟨_, by simp [send, alert, consoleError], hcaught m⟩
  | json data =>
    cases hres : getResult data with
    | error m => exact ⟨_, by simp [hres, send, alert, consoleError], hcaught m⟩
    | ok r =>
      cases ht : r.truthy
      · refine ⟨[js "Account not found or no balance available"], by simp [hres, ht, send, alert], ?_⟩
        intro a ha
        simp only [List.mem_singleton] at ha
        subst ha
        decide
      · exact ⟨[], by simp [hres, ht, send], by simp⟩

theorem handleSearchCatch_alerts (r : Run) :
    ∃ ys, (handleSearchCatch r).alerts = r.world.alerts ++ ys ∧ ∀ a ∈ ys, a.head? ≠ some 73 := by
  unfold handleSearchCatch
  cases r.error with
  | none => exact ⟨[], by simp, by simp⟩
  | some m =>
    refine ⟨[js "An error occurred: " ++ m], by simp [alert, consoleError], ?_⟩
    intro a ha
    simp only [List.mem_singleton] at ha
    subst ha
    have : (js "An error occurred: " ++ m).head? = some 65 := rfl
    rw [this]
    decide

/-- A search that issues a fetch never raises the invalid-input notice. -/
theorem fetch_route_not_invalid (w : World) (r : Run)
    (h : ∃ xs, r.world.alerts = w.alerts ++ xs ∧ ∀ a ∈ xs, a.head? ≠ some 73) :
    invalidInputMessage ∉ raised w (handleSearchCatch r) := by
  obtain ⟨xs, hxs, hx⟩ := h
  obtain ⟨ys, hys, hy⟩ := handleSearchCatch_alerts r
  rw [raised_append w _ (xs ++ ys) (by rw [hys, hxs, List.append_assoc])]
  intro hmem
  rcases List.mem_append.mp hmem with hm | hm
  · exact hx _ hm invalidInputMessage_head
  · exact hy _ hm invalidInputMessage_head


theorem method_block_ne_balance : js "eth_getBlockByNumber" ≠ js "eth_getBalance" := by decide

theorem method_block_ne_transaction : js "eth_getBlockByNumber" ≠ js "eth_getTransactionByHash" := by
  decide

theorem method_balance_ne_transaction : js "eth_getBalance" ≠ js "eth_getTransactionByHash" := by
  decide

/-- Notices raised by one search: the invalid-input notice alone when no test
passes, and never that notice otherwise. -/
theorem handleSearch_raised (toLower : JSString → JSString) (w : World)
    (searchValue : JSString) (resp : Response) :
    if isNumeric (trim searchValue) = true ∨
        ((toLower (trim searchValue)).length = 42 ∧
          startsWith (toLower (trim searchValue)) (js "0x") = true) ∨
        ((toLower (trim searchValue)).length = 66 ∧
          startsWith (toLower (trim searchValue)) (js "0x") = true) then
      invalidInputMessage ∉ raised w (handleSearch toLower w searchValue resp)
    else raised w (handleSearch toLower w searchValue resp) = [invalidInputMessage] := by
  rw [handleSearch_eq]
  by_cases hn : isNumeric (trim searchValue) = true
  · simp only [hn, true_or, if_true]
    exact fetch_route_not_invalid w _ ⟨[], by simp [fetchBlock_alerts], by simp⟩
  · by_cases h42 : (toLower (trim searchValue)).length = 42 ∧
        startsWith (toLower (trim searchValue)) (js "0x") = true
    · simp only [hn, h42, true_or, or_true, if_true, if_false]
      exact fetch_route_not_invalid w _ (fetchAccountBalance_alerts w _ resp)
    · by_cases h66 : (toLower (trim searchValue)).length = 66 ∧
          startsWith (toLower (trim searchValue)) (js "0x") = true
      · simp only [hn, h42, h66, or_true, if_true, if_false]
        exact fetch_route_not_invalid w _ (fetchTransaction_alerts w _ resp)
      · simp only [hn, h42, h66, or_false, if_false]
        exact raised_append w _ _ (by simp [handleSearchCatch, alert])

/-- The route statements follow from what a search sends and raises. -/
theorem routes_of_issued (t l : JSString) (w w' : World) (A B : Prop) [Decidable A] [Decidable B]
    (hiss : issued w w' =
      if isNumeric t = true then [fetchBlockRequest t]
      else if A then [fetchAccountBalanceRequest l]
      else if B then [fetchTransactionRequest l] else [])
    (hrai : if isNumeric t = true ∨ A ∨ B then invalidInputMessage ∉ raised w w'
      else raised w w' = [invalidInputMessage]) :
    (issued w w' = [fetchBlockRequest t] ↔ isNumeric t = true) ∧
    (issued w w' = [fetchAccountBalanceRequest l] ↔ ¬ isNumeric t = true ∧ A) ∧
    (issued w w' = [fetchTransactionRequest l] ↔ ¬ isNumeric t = true ∧ ¬ A ∧ B) ∧
    ((issued w w' = [] ∧ raised w w' = [invalidInputMessage]) ↔
      ¬ isNumeric t = true ∧ ¬ A ∧ ¬ B) ∧
    ((issued w w').map Request.method = [js "eth_getBlockByNumber"] ↔ isNumeric t = true) ∧
    (invalidInputMessage ∈ raised w w' ↔ ¬ isNumeric t = true ∧ ¬ A ∧ ¬ B) := by
  have h1 := method_block_ne_balance
  have h2 := method_block_ne_transaction
  have h3 := method_balance_ne_transaction
  rw [hiss]
  by_cases hn : isNumeric t = true
  · simp only [hn, true_or, if_true] at hrai
    simp [hn, hrai, fetchBlockRequest, fetchAccountBalanceRequest, fetchTransactionRequest, h1, h2]
  · by_cases hA : A
    · simp only [hn, hA, true_or, or_true, if_true, if_false] at hrai
      simp [hn, hA, hrai, fetchBlockRequest, fetchAccountBalanceRequest, fetchTransactionRequest,
        h1.symm, h3]
    · by_cases hB : B
      · simp only [hn, hA, hB, or_true, if_true, if_false] at hrai
        simp [hn, hA, hB, hrai, fetchBlockRequest, fetchAccountBalanceRequest,
          fetchTransactionRequest, h2.symm, h3.symm]
      · have hrai' : raised w w' = [invalidInputMessage] := by simpa [hn, hA, hB] using hrai
        simp [hn, hA, hB, hrai']

/-- C1. For every search string, with `t` the trimmed string and `l` its
lowercased form, `handleSearch` takes exactly one route: it sends the block
request for `t` if and only if `t` matches `^[0-9]+$`; otherwise the balance
request for `l` if and only if `l` has length 42 and starts with `0x`; otherwise
the transaction request for `l` if and only if `l` has length 66 and starts with
`0x`; otherwise it raises the invalid-input notice and sends nothing. A block
request is never sent for a string that is not all decimal digits, and the
invalid-input notice is raised in the last case only. -/
theorem handleSearch_routes (toLower : JSString → JSString) (w : World)
    (searchValue : JSString) (resp : Response) :
    let t := trim searchValue
    let l := toLower t
    let w' := handleSearch toLower w searchValue resp
    (issued w w' = [fetchBlockRequest t] ↔ isNumeric t = true) ∧
    (issued w w' = [fetchAccountBalanceRequest l] ↔
      ¬ isNumeric t = true ∧ (l.length = 42 ∧ startsWith l (js "0x") = true)) ∧
    (issued w w' = [fetchTransactionRequest l] ↔
      ¬ isNumeric t = true ∧ ¬ (l.length = 42 ∧ startsWith l (js "0x") = true) ∧
        (l.length = 66 ∧ startsWith l (js "0x") = true)) ∧
    ((issued w w' = [] ∧ raised w w' = [invalidInputMessage]) ↔
      ¬ isNumeric t = true ∧ ¬ (l.length = 42 ∧ startsWith l (js "0x") = true) ∧
        ¬ (l.length = 66 ∧ startsWith l (js "0x") = true)) ∧
    ((issued w w').map Request.method = [js "eth_getBlockByNumber"] ↔ isNumeric t = true) ∧
    (invalidInputMessage ∈ raised w w' ↔
      ¬ isNumeric t = true ∧ ¬ (l.length = 42 ∧ startsWith l (js "0x") = true) ∧
        ¬ (l.length = 66 ∧ startsWith l (js "0x") = true)) :=
  routes_of_issued _ _ w _ _ _
    (issued_append w _ _ (handleSearch_requests toLower w searchValue resp))
    (handleSearch_raised toLower w searchValue resp)


/-! ## Shapes of search strings -/

theorem dropWhile_head {α : Type} (p : α → Bool) (l : List α)
    (h : ∀ c, l.head? = some c → p c = false) : l.dropWhile p = l := by
  cases l with
  | nil => rfl
  | cons a t => simp [List.dropWhile_cons, h a rfl]

theorem trim_eq_self (s : JSString) (h : ∀ c ∈ s, isWhiteSpace c = false) : trim s = s := by
  unfold trim trimEnd trimStart
  have h1 : s.dropWhile isWhiteSpace = s :=
    dropWhile_head _ _ (fun c hc => h c (List.mem_of_mem_head? hc))
  rw [h1, dropWhile_head _ s.reverse, List.reverse_reverse]
  intro c hc
  exact h c (List.mem_reverse.mp (List.mem_of_mem_head? hc))

/-- What `handleSearch` computes on `0x` followed by hexadecimal digits. -/
theorem hexQuantity_facts (d : Nat) (s : JSString) (h : IsHexQuantity d s) :
    trim s = s ∧ ¬ isNumeric s = true ∧ (toLowerCase s).length = d + 2 ∧
      startsWith (toLowerCase s) (js "0x") = true := by
  obtain ⟨hlen, hpre, hhex⟩ := h
  rw [js_0x] at hpre ⊢
  match s, hlen, hpre, hhex with
  | [], _, hpre, _ => simp [startsWith] at hpre
  | [_], _, hpre, _ => simp [startsWith] at hpre
  | a :: b :: rest, hlen, hpre, hhex =>
    simp only [startsWith, Bool.and_eq_true, beq_iff_eq, and_true] at hpre
    obtain ⟨rfl, rfl⟩ := hpre
    refine ⟨?_, ?_, ?_, ?_⟩
    · apply trim_eq_self
      intro c hc
      apply isWhiteSpace_digit
      simp only [List.mem_cons] at hc
      rcases hc with rfl | rfl | hc
      · decide
      · decide
      · have := hhex c (by simpa using hc)
        simp only [isHexDigit, isLowerHexDigit, Bool.or_eq_true, Bool.and_eq_true,
          decide_eq_true_eq] at this
        unfold digitValue
        split_ifs <;> first | rfl | omega
    · simp [isNumeric, isDecimalDigit]
    · simpa [toLowerCase] using hlen
    · simp [toLowerCase, startsWith]


/-- Requests sent by a search for `0x` followed by hexadecimal digits. -/
theorem handleSearch_hexQuantity (d : Nat) (w : World) (s : JSString) (resp : Response)
    (h : IsHexQuantity d s) :
    issued w (handleSearch toLowerCase w s resp) =
      if d = 40 then [fetchAccountBalanceRequest (toLowerCase s)]
      else if d = 64 then [fetchTransactionRequest (toLowerCase s)] else [] := by
  obtain ⟨ht, hn, hlen, hpre⟩ := hexQuantity_facts d s h
  rw [issued_append w _ _ (handleSearch_requests toLowerCase w s resp)]
  have e1 : d + 2 = 42 ↔ d = 40 := by omega
  have e2 : d + 2 = 66 ↔ d = 64 := by omega
  simp [ht, hn, hlen, hpre, e1, e2]

/-- C2 as stated fails: `0x` followed by forty letters `g` is not `0x` followed
by 40 hexadecimal digits and is not numeric, yet the search sends the balance
request for it and raises no invalid-input notice. -/
theorem handleSearch_accepts_non_hex :
    ¬ IsHexQuantity 40 sampleNotHex ∧ isNumeric (trim sampleNotHex) = false ∧
    issued World.initial
        (handleSearch toLowerCase World.initial sampleNotHex (Response.json nullResultBody)) =
      [fetchAccountBalanceRequest sampleNotHex] ∧
    invalidInputMessage ∉ raised World.initial
        (handleSearch toLowerCase World.initial sampleNotHex (Response.json nullResultBody)) :=
  ⟨by decide, by decide, rfl, by decide⟩

/-- C2, amended. `handleSearch` tests length and marker only. Every `0x`
followed by exactly 40 hexadecimal digits is looked up as an address and every
`0x` followed by exactly 64 hexadecimal digits as a transaction hash; a balance
request is sent only if the trimmed, lowercased string has length 42 and starts
with `0x`, and a transaction request only if it has length 66 and starts with
`0x`; a non-numeric string is rejected with the invalid-input notice exactly
when it has neither shape. -/
theorem handleSearch_shape_only :
    (∀ (w : World) (s : JSString) (resp : Response), IsHexQuantity 40 s →
      issued w (handleSearch toLowerCase w s resp) =
        [fetchAccountBalanceRequest (toLowerCase s)]) ∧
    (∀ (w : World) (s : JSString) (resp : Response), IsHexQuantity 64 s →
      issued w (handleSearch toLowerCase w s resp) =
        [fetchTransactionRequest (toLowerCase s)]) ∧
    (∀ (toLower : JSString → JSString) (w : World) (s : JSString) (resp : Response),
      (issued w (handleSearch toLower w s resp)).map Request.method = [js "eth_getBalance"] →
        (toLower (trim s)).length = 42 ∧ startsWith (toLower (trim s)) (js "0x") = true) ∧
    (∀ (toLower : JSString → JSString) (w : World) (s : JSString) (resp : Response),
      (issued w (handleSearch toLower w s resp)).map Request.method =
          [js "eth_getTransactionByHash"] →
        (toLower (trim s)).length = 66 ∧ startsWith (toLower (trim s)) (js "0x") = true) ∧
    (∀ (toLower : JSString → JSString) (w : World) (s : JSString) (resp : Response),
      ¬ isNumeric (trim s) = true →
        (invalidInputMessage ∈ raised w (handleSearch toLower w s resp) ↔
          ¬ ((toLower (trim s)).length = 42 ∧ startsWith (toLower (trim s)) (js "0x") = true) ∧
          ¬ ((toLower (trim s)).length = 66 ∧
            startsWith (toLower (trim s)) (js "0x") = true))) := by
  have h1 := method_block_ne_balance
  have h2 := method_block_ne_transaction
  have h3 := method_balance_ne_transaction
  refine ⟨?_, ?_, ?_, ?_, ?_⟩
  · intro w s resp h
    simpa using handleSearch_hexQuantity 40 w s resp h
  · intro w s resp h
    simpa using handleSearch_hexQuantity 64 w s resp h
  · intro toLower w s resp h
    rw [issued_append w _ _ (handleSearch_requests toLower w s resp)] at h
    split_ifs at h with hn h42 h66
    · simp [fetchBlockRequest, h1] at h
    · exact h42
    · simp [fetchTransactionRequest, h3.symm] at h
    · simp at h
  · intro toLower w s resp h
    rw [issued_append w _ _ (handleSearch_requests toLower w s resp)] at h
    split_ifs at h with hn h42 h66
    · simp [fetchBlockRequest, h2] at h
    · simp [fetchAccountBalanceRequest, h3] at h
    · exact h66
    · simp at h
  · intro toLower w s resp hn
    have := (routes_of_issued _ _ w _ _ _
      (issued_append w _ _ (handleSearch_requests toLower w s resp))
      (handleSearch_raised toLower w s resp)).2.2.2.2.2
    simpa [hn] using this


/-! ## Display state -/

theorem atMostOne_initial : AtMostOneResult Display.initial := Or.inl ⟨rfl, rfl⟩

theorem fetchBlock_display (w : World) (blockNumber : JSString) (resp : Response) :
    (fetchBlock w blockNumber resp).world.display = w.display ∨
    ∃ r, (fetchBlock w blockNumber resp).world.display = ⟨r, JSValue.null, none⟩ := by
  unfold fetchBlock
  cases resp with
  | rejected m => exact Or.inl rfl
  | invalidJson m => exact Or.inl rfl
  | json data =>
    cases hres : getResult data with
    | error m => exact Or.inl (by simp [hres, send])
    | ok r => exact Or.inr ⟨r, by simp [hres]⟩

theorem fetchTransaction_display (w : World) (txHash : JSString) (resp : Response) :
    (fetchTransaction w txHash resp).world.display = w.display ∨
    ∃ r, (fetchTransaction w txHash resp).world.display = ⟨JSValue.null, r, none⟩ := by
  unfold fetchTransaction
  cases resp with
  | rejected m => exact Or.inl rfl
  | invalidJson m => exact Or.inl rfl
  | json data =>
    cases hres : getResult data with
    | error m => exact Or.inl (by simp [hres, send])
    | ok r =>
      cases ht : r.truthy
      · exact Or.inl (by simp [hres, ht, send, alert])
      · exact Or.inr ⟨r, by simp [hres, ht]⟩

theorem fetchAccountBalance_display (w : World) (address : JSString) (resp : Response) :
    (fetchAccountBalance w address resp).world.display = w.display ∨
    ∃ b, (fetchAccountBalance w address resp).world.display =
      ⟨JSValue.null, JSValue.null, some b⟩ := by
  unfold fetchAccountBalance
  cases resp with
  | rejected m => exact Or.inl rfl
  | invalidJson m => exact Or.inl rfl
  | json data =>
    cases hres : getResult data with
    | error m => exact Or.inl (by simp [hres, send, alert, consoleError])
    | ok r =>
      cases ht : r.truthy
      · exact Or.inl (by simp [hres, ht, send, alert])
      · exact Or.inr ⟨⟨r⟩, by simp [hres, ht]⟩

/-- Every completed fetch preserves mutual exclusion. -/
theorem atMostOne_step (w : World) (op : Op) (h : AtMostOneResult w.display) :
    AtMostOneResult (op.run w).display := by
  cases op with
  | fetchBlock b resp =>
    rcases fetchBlock_display w b resp with heq | ⟨r, heq⟩
    · simpa [Op.run, heq] using h
    · simp [Op.run, heq, AtMostOneResult]
  | fetchTransaction t resp =>
    rcases fetchTransaction_display w t resp with heq | ⟨r, heq⟩
    · simpa [Op.run, heq] using h
    · simp [Op.run, heq, AtMostOneResult]
  | fetchAccountBalance a resp =>
    rcases fetchAccountBalance_display w a resp with heq | ⟨r, heq⟩
    · simpa [Op.run, heq] using h
    · simp [Op.run, heq, AtMostOneResult]

theorem atMostOne_runOps (ops : List Op) :
    ∀ w : World, AtMostOneResult w.display → AtMostOneResult (runOps w ops).display := by
  induction ops with
  | nil => intro w h; exact h
  | cons op ops ih =>
    intro w h
    exact ih (op.run w) (atMostOne_step w op h)

/-- C3. In every display state reached from the initial state by a sequence of
completed `fetchBlock`, `fetchTransaction` and `fetchAccountBalance` operations,
whatever the responses, at most one of `blockData`, `transactionData` and
`accountBalance` is not `null`; and a fetch that succeeds stores its result and
sets the other two to `null`. -/
theorem mutual_exclusion (ops : List Op) :
    AtMostOneResult (runOps World.initial ops).display ∧
    (∀ (w : World) (blockNumber : JSString) (data r : JSValue),
      getResult data = Except.ok r →
        (fetchBlock w blockNumber (Response.json data)).world.display =
          ⟨r, JSValue.null, none⟩) ∧
    (∀ (w : World) (txHash : JSString) (data r : JSValue),
      getResult data = Except.ok r → r.truthy = true →
        (fetchTransaction w txHash (Response.json data)).world.display =
          ⟨JSValue.null, r, none⟩) ∧
    (∀ (w : World) (address : JSString) (data r : JSValue),
      getResult data = Except.ok r → r.truthy = true →
        (fetchAccountBalance w address (Response.json data)).world.display =
          ⟨JSValue.null, JSValue.null, some ⟨r⟩⟩) := by
  refine ⟨atMostOne_runOps ops World.initial atMostOne_initial, ?_, ?_, ?_⟩
  · intro w b data r hres
    simp [fetchBlock, hres]
  · intro w t data r hres ht
    simp [fetchTransaction, hres, ht]
  · intro w a data r hres ht
    simp [fetchAccountBalance, hres, ht]

/-- C4, the code at a null result: `fetchBlock` resolves, stores `null` and
raises no notice, through the search as well, where `fetchTransaction` and
`fetchAccountBalance` raise their not-found notices on the same response; and
so it is for every block number and every response whose result is `null`. -/
theorem fetchBlock_null_result_silent :
    getResult nullResultBody = Except.ok JSValue.null ∧
    (fetchBlock World.initial (js "999999999") (Response.json nullResultBody)).error = none ∧
    (fetchBlock World.initial (js "999999999") (Response.json nullResultBody)).world.alerts = [] ∧
    (fetchBlock World.initial (js "999999999") (Response.json nullResultBody)).world.display =
      Display.initial ∧
    (handleSearch toLowerCase World.initial (js "999999999")
      (Response.json nullResultBody)).alerts = [] ∧
    (fetchTransaction World.initial sampleHash (Response.json nullResultBody)).world.alerts =
      [js "Transaction not found"] ∧
    (fetchAccountBalance World.initial sampleNotHex (Response.json nullResultBody)).world.alerts =
      [js "Account not found or no balance available"] ∧
    (∀ (w : World) (blockNumber : JSString) (data : JSValue),
      getResult data = Except.ok JSValue.null →
        (fetchBlock w blockNumber (Response.json data)).error = none ∧
        (fetchBlock w blockNumber (Response.json data)).world.alerts = w.alerts ∧
        (fetchBlock w blockNumber (Response.json data)).world.display.blockData =
          JSValue.null) := by
  refine ⟨rfl, rfl, rfl, rfl, rfl, rfl, rfl, ?_⟩
  intro w blockNumber data hr
  simp [fetchBlock, hr, send]

/-- C5. For every well-formed 66-character hash submitted to the search, when
the node answers with a `null` result, the search sends the transaction request,
raises the notice `Transaction not found` and nothing else, and leaves the three
results as they were; from the initial state no transaction summary is shown. -/
theorem transaction_not_found (w : World) (s : JSString) (data : JSValue)
    (hs : IsHexQuantity 64 s) (hr : getResult data = Except.ok JSValue.null) :
    issued w (handleSearch toLowerCase w s (Response.json data)) =
      [fetchTransactionRequest (toLowerCase s)] ∧
    raised w (handleSearch toLowerCase w s (Response.json data)) =
      [js "Transaction not found"] ∧
    (handleSearch toLowerCase w s (Response.json data)).display = w.display ∧
    (w.display = Display.initial →
      showsTransactionSummary (handleSearch toLowerCase w s (Response.json data)).display
        = false) := by
  obtain ⟨ht, hn, hlen, hpre⟩ := hexQuantity_facts 64 s hs
  have hw : handleSearch toLowerCase w s (Response.json data) =
      alert (send w (fetchTransactionRequest (toLowerCase s))) (js "Transaction not found") := by
    rw [handleSearch_eq]
    simp [ht, hn, hlen, hpre, fetchTransaction, hr, JSValue.truthy, handleSearchCatch]
  rw [hw]
  refine ⟨issued_append _ _ _ (by simp [alert, send]), raised_append _ _ _ (by simp [alert, send]),
    by simp [alert, send], ?_⟩
  intro hd
  simp [alert, send, hd, showsTransactionSummary, Display.initial, JSValue.truthy]

theorem transaction_not_found_witness :
    IsHexQuantity 64 sampleHash ∧ getResult nullResultBody = Except.ok JSValue.null ∧
    (issued World.initial
        (handleSearch toLowerCase World.initial sampleHash (Response.json nullResultBody)) =
      [fetchTransactionRequest (toLowerCase sampleHash)] ∧
    raised World.initial
        (handleSearch toLowerCase World.initial sampleHash (Response.json nullResultBody)) =
      [js "Transaction not found"] ∧
    (handleSearch toLowerCase World.initial sampleHash (Response.json nullResultBody)).display =
      World.initial.display ∧
    (World.initial.display = Display.initial →
      showsTransactionSummary
        (handleSearch toLowerCase World.initial sampleHash (Response.json nullResultBody)).display
        = false)) :=
  ⟨by decide, rfl, transaction_not_found World.initial sampleHash nullResultBody (by decide) rfl⟩

/-- C6, the code at a transport failure on startup: with `tx` or `block` in the
URL the failure raises no notice and writes no log line, for every message,
where the same failure in a search, and on startup with `address`, raises a
notice carrying the message. -/
theorem startup_failure_unreported :
    (startupFetch World.initial (some sampleHash) none none
      (Response.rejected (js "Failed to fetch"))).alerts = [] ∧
    (startupFetch World.initial (some sampleHash) none none
      (Response.rejected (js "Failed to fetch"))).console.length = 0 ∧
    (startupFetch World.initial none (some (js "5")) none
      (Response.invalidJson (js "Unexpected end of JSON input"))).alerts = [] ∧
    (startupFetch World.initial none (some (js "5")) none
      (Response.invalidJson (js "Unexpected end of JSON input"))).console.length = 0 ∧
    (handleSearch toLowerCase World.initial sampleHash
      (Response.rejected (js "Failed to fetch"))).alerts =
        [js "An error occurred: Failed to fetch"] ∧
    (handleSearch toLowerCase World.initial (js "5")
      (Response.invalidJson (js "Unexpected end of JSON input"))).alerts =
        [js "An error occurred: Unexpected end of JSON input"] ∧
    (startupFetch World.initial none none (some sampleNotHex)
      (Response.rejected (js "Failed to fetch"))).alerts =
        [js "Error fetching account balance: Failed to fetch"] ∧
    (∀ (w : World) (txHash : JSString) (blockNumber address : Option JSString)
        (message : JSString), paramGiven (some txHash) = true →
      (startupFetch w (some txHash) blockNumber address (Response.rejected message)).alerts =
          w.alerts ∧
      (startupFetch w (some txHash) blockNumber address (Response.invalidJson message)).alerts =
          w.alerts) ∧
    (∀ (w : World) (blockNumber : JSString) (address : Option JSString) (message : JSString),
      paramGiven (some blockNumber) = true →
      (startupFetch w none (some blockNumber) address (Response.rejected message)).alerts =
          w.alerts ∧
      (startupFetch w none (some blockNumber) address (Response.invalidJson message)).alerts =
          w.alerts) := by
  refine ⟨rfl, rfl, rfl, rfl, by decide, by decide, by decide, ?_, ?_⟩
  · intro w txHash blockNumber address message h
    simp [startupFetch, h, fetchTransaction, send]
  · intro w blockNumber address message h
    have hnone : paramGiven none = false := rfl
    simp only [startupFetch, h, hnone, if_true, if_false, Bool.false_eq_true]
    simp [fetchBlock, send]

/-! ## Rounding to a double -/

theorem bitLengthAux_bounds :
    ∀ (fuel n : Nat), 0 < n → n ≤ fuel →
      0 < bitLengthAux fuel n ∧ 2 ^ (bitLengthAux fuel n - 1) ≤ n ∧ n < 2 ^ bitLengthAux fuel n := by
  intro fuel
  induction fuel with
  | zero => intro n h1 h2; omega
  | succ fuel ih =>
    intro n hpos hle
    have hne : n ≠ 0 := by omega
    simp only [bitLengthAux, hne, if_false]
    rcases Nat.eq_zero_or_pos (n / 2) with h0 | hp
    · have hn1 : n = 1 := by omega
      subst hn1
      cases fuel <;> simp [bitLengthAux]
    · obtain ⟨hL, hlo, hhi⟩ := ih (n / 2) hp (by omega)
      refine ⟨by omega, ?_, ?_⟩
      · have : bitLengthAux fuel (n / 2) + 1 - 1 = (bitLengthAux fuel (n / 2) - 1) + 1 := by omega
        rw [this, pow_succ]
        omega
      · rw [pow_succ]
        omega

theorem bitLength_bounds (n : Nat) (h : 0 < n) :
    0 < bitLength n ∧ 2 ^ (bitLength n - 1) ≤ n ∧ n < 2 ^ bitLength n :=
  bitLengthAux_bounds n n h (le_refl n)

theorem zpow_split (ex : Int) :
    ((2 : ℚ) ^ (-ex).toNat) / (2 : ℚ) ^ ex.toNat = (2 : ℚ) ^ (-ex) := by
  rcases le_total 0 ex with h | h
  · have h1 : (-ex).toNat = 0 := Int.toNat_eq_zero.mpr (by omega)
    have h2 : ((ex.toNat : Int)) = ex := Int.toNat_of_nonneg h
    rw [h1, pow_zero, zpow_neg, one_div]
    congr 1
    rw [← zpow_natCast, h2]
  · have h1 : ex.toNat = 0 := Int.toNat_eq_zero.mpr h
    have h2 : (((-ex).toNat : Int)) = -ex := Int.toNat_of_nonneg (by omega)
    rw [h1, pow_zero, div_one, ← zpow_natCast, h2]

theorem zpow_split' (e : Int) :
    ((2 : ℚ) ^ e.toNat) / (2 : ℚ) ^ (-e).toNat = (2 : ℚ) ^ e := by
  have := zpow_split (-e)
  simpa using this

/-- The comparison of `floorLog2`, read in the rationals. -/
theorem pow_cmp_iff (a b : Nat) (e : Int) (hb : 0 < b) :
    b * 2 ^ e.toNat ≤ a * 2 ^ (-e).toNat ↔ (2 : ℚ) ^ e ≤ (a : ℚ) / b := by
  have hb' : (0 : ℚ) < b := by exact_mod_cast hb
  have h2 : (0 : ℚ) < (2 : ℚ) ^ (-e).toNat := by positivity
  rw [← zpow_split' e, div_le_div_iff₀ h2 hb']
  constructor
  · intro h
    have : ((b * 2 ^ e.toNat : ℕ) : ℚ) ≤ ((a * 2 ^ (-e).toNat : ℕ) : ℚ) := by exact_mod_cast h
    push_cast at this
    linarith
  · intro h
    have : ((b * 2 ^ e.toNat : ℕ) : ℚ) ≤ ((a * 2 ^ (-e).toNat : ℕ) : ℚ) := by
      push_cast
      linarith
    exact_mod_cast this

theorem floorLog2_spec (num den : Nat) (hn : 0 < num) (hd : 0 < den) :
    (2 : ℚ) ^ floorLog2 num den ≤ (num : ℚ) / den ∧
      (num : ℚ) / den < (2 : ℚ) ^ (floorLog2 num den + 1) := by
  obtain ⟨hla, hnlo, hnhi⟩ := bitLength_bounds num hn
  obtain ⟨hlb, hdlo, hdhi⟩ := bitLength_bounds den hd
  have hd' : (0 : ℚ) < den := by exact_mod_cast hd
  have hnlo' : (2 : ℚ) ^ ((bitLength num : Int) - 1) ≤ num := by
    have : ((2 ^ (bitLength num - 1) : ℕ) : ℚ) ≤ num := by exact_mod_cast hnlo
    have hc : ((bitLength num - 1 : ℕ) : Int) = (bitLength num : Int) - 1 := by omega
    rw [← hc, zpow_natCast]
    exact_mod_cast this
  have hnhi' : (num : ℚ) < (2 : ℚ) ^ (bitLength num : Int) := by
    rw [zpow_natCast]
    exact_mod_cast hnhi
  have hdlo' : (2 : ℚ) ^ ((bitLength den : Int) - 1) ≤ den := by
    have : ((2 ^ (bitLength den - 1) : ℕ) : ℚ) ≤ den := by exact_mod_cast hdlo
    have hc : ((bitLength den - 1 : ℕ) : Int) = (bitLength den : Int) - 1 := by omega
    rw [← hc, zpow_natCast]
    exact_mod_cast this
  have hdhi' : (den : ℚ) < (2 : ℚ) ^ (bitLength den : Int) := by
    rw [zpow_natCast]
    exact_mod_cast hdhi
  have two : (2 : ℚ) ≠ 0 := by norm_num
  unfold floorLog2
  simp only []
  by_cases hc : den * 2 ^ ((bitLength num : Int) - (bitLength den : Int)).toNat ≤
      num * 2 ^ (-((bitLength num : Int) - (bitLength den : Int))).toNat
  · rw [if_pos hc]
    refine ⟨(pow_cmp_iff num den _ hd).mp hc, ?_⟩
    rw [div_lt_iff₀ hd']
    calc (num : ℚ) < (2 : ℚ) ^ (bitLength num : Int) := hnhi'
      _ = (2 : ℚ) ^ ((bitLength num : Int) - (bitLength den : Int) + 1) *
            (2 : ℚ) ^ ((bitLength den : Int) - 1) := by
          rw [← zpow_add₀ two]
          congr 1
          ring
      _ ≤ (2 : ℚ) ^ ((bitLength num : Int) - (bitLength den : Int) + 1) * den := by
          apply mul_le_mul_of_nonneg_left hdlo'
          positivity
  · rw [if_neg hc]
    have hlt : (num : ℚ) / den < (2 : ℚ) ^ ((bitLength num : Int) - (bitLength den : Int)) := by
      rw [← not_le]
      exact fun h => hc ((pow_cmp_iff num den _ hd).mpr h)
    refine ⟨?_, by simpa using hlt⟩
    rw [le_div_iff₀ hd']
    calc (2 : ℚ) ^ ((bitLength num : Int) - (bitLength den : Int) - 1) * den
        ≤ (2 : ℚ) ^ ((bitLength num : Int) - (bitLength den : Int) - 1) *
            (2 : ℚ) ^ (bitLength den : Int) := by
          apply mul_le_mul_of_nonneg_left (le_of_lt hdhi')
          positivity
      _ = (2 : ℚ) ^ ((bitLength num : Int) - 1) := by
          rw [← zpow_add₀ two]
          congr 1
          ring
      _ ≤ num := hnlo'

/-- The integer `roundNearest` picks in the normal range: within one half of the
scaled quotient, equal to it when the division is exact, and what the function
returns for it. -/
theorem roundNearest_core (negative : Bool) (num den : Nat) (hn : 0 < num) (hd : 0 < den)
    (hlo : -1022 ≤ floorLog2 num den) (hhi : floorLog2 num den ≤ 1023) :
    ∃ m : Nat,
      |(m : ℚ) - (num : ℚ) / den * (2 : ℚ) ^ (-(floorLog2 num den - 52))| ≤ 1 / 2 ∧
      (den * 2 ^ (floorLog2 num den - 52).toNat ∣ num * 2 ^ (-(floorLog2 num den - 52)).toNat →
        (m : ℚ) = (num : ℚ) / den * (2 : ℚ) ^ (-(floorLog2 num den - 52)) ∧ m < 2 ^ 53) ∧
      m ≤ 2 ^ 53 ∧
      roundNearest negative num den =
        (if m = 2 ^ 53 then
          (if floorLog2 num den - 52 + 1 ≤ 971 then
            JSNumber.finite negative (2 ^ 52) (floorLog2 num den - 52 + 1)
          else JSNumber.infinity negative)
        else JSNumber.finite negative m (floorLog2 num den - 52)) := by
  obtain ⟨hlog1, hlog2⟩ := floorLog2_spec num den hn hd
  obtain ⟨e, he⟩ : ∃ e, e = floorLog2 num den := ⟨_, rfl⟩
  rw [← he] at hlo hhi hlog1 hlog2 ⊢
  have hne : num ≠ 0 := by omega
  have hex : max (e - 52) (-1074) = e - 52 := max_eq_left (by omega)
  have hD : 0 < den * 2 ^ (e - 52).toNat := Nat.mul_pos hd (by positivity)
  have hDq : (0 : ℚ) < ((den * 2 ^ (e - 52).toNat : ℕ) : ℚ) := by exact_mod_cast hD
  have hd' : (0 : ℚ) < den := by exact_mod_cast hd
  have two : (2 : ℚ) ≠ 0 := by norm_num
  -- the scaled quotient
  have ht : ((num * 2 ^ (-(e - 52)).toNat : ℕ) : ℚ) / ((den * 2 ^ (e - 52).toNat : ℕ) : ℚ) =
      (num : ℚ) / den * (2 : ℚ) ^ (-(e - 52)) := by
    rw [← zpow_split (e - 52)]
    push_cast
    field_simp
  have ht53 : (num : ℚ) / den * (2 : ℚ) ^ (-(e - 52)) < 2 ^ 53 := by
    have h2 : (0 : ℚ) < (2 : ℚ) ^ (-(e - 52)) := by positivity
    calc (num : ℚ) / den * (2 : ℚ) ^ (-(e - 52))
        < (2 : ℚ) ^ (e + 1) * (2 : ℚ) ^ (-(e - 52)) := mul_lt_mul_of_pos_right hlog2 h2
      _ = 2 ^ 53 := by
          rw [← zpow_add₀ two]
          have : e + 1 + -(e - 52) = ((53 : ℕ) : Int) := by push_cast; ring
          rw [this, zpow_natCast]
  set N := num * 2 ^ (-(e - 52)).toNat with hN
  set D := den * 2 ^ (e - 52).toNat with hDdef
  have hdiv : (N : ℚ) = (D : ℚ) * ((N / D : ℕ) : ℚ) + ((N % D : ℕ) : ℚ) := by
    exact_mod_cast (Nat.div_add_mod N D).symm
  have hr : N % D < D := Nat.mod_lt N hD
  have hrq : ((N % D : ℕ) : ℚ) < D := by exact_mod_cast hr
  have hr0 : (0 : ℚ) ≤ ((N % D : ℕ) : ℚ) := by positivity
  have htq : (num : ℚ) / den * (2 : ℚ) ^ (-(e - 52)) =
      ((N / D : ℕ) : ℚ) + ((N % D : ℕ) : ℚ) / D := by
    rw [← ht, hdiv]
    field_simp
    ring
  have hfrac0 : (0 : ℚ) ≤ ((N % D : ℕ) : ℚ) / D := by positivity
  have hfrac1 : ((N % D : ℕ) : ℚ) / D < 1 := by
    rw [div_lt_one hDq]
    exact hrq
  have hq53 : N / D < 2 ^ 53 := by
    have : ((N / D : ℕ) : ℚ) < 2 ^ 53 := by linarith
    exact_mod_cast this
  refine ⟨if D < 2 * (N % D) ∨ (2 * (N % D) = D ∧ N / D % 2 = 1) then N / D + 1 else N / D,
    ?_, ?_, ?_, ?_⟩
  · rw [htq]
    by_cases hup : D < 2 * (N % D) ∨ (2 * (N % D) = D ∧ N / D % 2 = 1)
    · rw [if_pos hup]
      have h2r : D ≤ 2 * (N % D) := by
        rcases hup with h | ⟨h, _⟩ <;> omega
      have h2rq : (D : ℚ) ≤ 2 * ((N % D : ℕ) : ℚ) := by exact_mod_cast h2r
      have hhalf : (1 : ℚ) / 2 ≤ ((N % D : ℕ) : ℚ) / D := by
        rw [div_le_div_iff₀ (by norm_num) hDq]
        linarith
      push_cast
      rw [abs_le]
      constructor <;> linarith
    · rw [if_neg hup]
      have h2r : 2 * (N % D) ≤ D := by
        by_contra hcon
        exact hup (Or.inl (by omega))
      have h2rq : 2 * ((N % D : ℕ) : ℚ) ≤ (D : ℚ) := by exact_mod_cast h2r
      have hhalf : ((N % D : ℕ) : ℚ) / D ≤ 1 / 2 := by
        rw [div_le_div_iff₀ hDq (by norm_num)]
        linarith
      rw [abs_le]
      constructor <;> linarith
  · intro hdvd
    have hr0' : N % D = 0 := Nat.mod_eq_zero_of_dvd hdvd
    have hup : ¬ (D < 2 * (N % D) ∨ (2 * (N % D) = D ∧ N / D % 2 = 1)) := by
      rw [hr0']
      omega
    rw [if_neg hup, htq, hr0']
    exact ⟨by simp, hq53⟩
  · split_ifs <;> omega
  · unfold roundNearest
    simp only [hne, if_false, ← he, hex]
    rw [if_pos (show e - 52 ≤ 971 by omega)]

/-- In the normal range `roundNearest` returns a double within half a unit in the
last place of the quotient. -/
theorem roundNearest_near (negative : Bool) (num den : Nat) (hn : 0 < num) (hd : 0 < den)
    (hlo : -1022 ≤ floorLog2 num den) (hhi : floorLog2 num den ≤ 1022) :
    ∃ (m : Nat) (ex : Int), roundNearest negative num den = JSNumber.finite negative m ex ∧
      |(m : ℚ) * (2 : ℚ) ^ ex - (num : ℚ) / den| ≤ (2 : ℚ) ^ (floorLog2 num den - 53) := by
  obtain ⟨m, hhalf, -, hm53, hres⟩ :=
    roundNearest_core negative num den hn hd hlo (by omega)
  obtain ⟨e, he⟩ : ∃ e, e = floorLog2 num den := ⟨_, rfl⟩
  rw [← he] at hlo hhi hhalf hres ⊢
  have two : (2 : ℚ) ≠ 0 := by norm_num
  have hpos : (0 : ℚ) < (2 : ℚ) ^ (e - 52) := by positivity
  have hscale : (num : ℚ) / den = (num : ℚ) / den * (2 : ℚ) ^ (-(e - 52)) * (2 : ℚ) ^ (e - 52) := by
    rw [mul_assoc, ← zpow_add₀ two]
    simp
  have hbound : |(m : ℚ) * (2 : ℚ) ^ (e - 52) - (num : ℚ) / den| ≤ (2 : ℚ) ^ (e - 53) := by
    have h1 : (m : ℚ) * (2 : ℚ) ^ (e - 52) - (num : ℚ) / den =
        ((m : ℚ) - (num : ℚ) / den * (2 : ℚ) ^ (-(e - 52))) * (2 : ℚ) ^ (e - 52) := by
      conv_lhs => rw [hscale]
      ring
    rw [h1, abs_mul, abs_of_pos hpos]
    have h2 : (2 : ℚ) ^ (e - 53) = 1 / 2 * (2 : ℚ) ^ (e - 52) := by
      have : e - 52 = (e - 53) + 1 := by ring
      rw [this, zpow_add₀ two]
      simp only [zpow_one]
      ring
    rw [h2]
    exact mul_le_mul_of_nonneg_right hhalf (le_of_lt hpos)
  by_cases h53 : m = 2 ^ 53
  · rw [if_pos h53, if_pos (by omega)] at hres
    refine ⟨2 ^ 52, e - 52 + 1, hres, ?_⟩
    have hval : ((2 ^ 52 : ℕ) : ℚ) * (2 : ℚ) ^ (e - 52 + 1) = (m : ℚ) * (2 : ℚ) ^ (e - 52) := by
      rw [h53, zpow_add₀ two]
      push_cast
      ring
    rw [hval]
    exact hbound
  · rw [if_neg h53] at hres
    exact ⟨m, e - 52, hres, hbound⟩

/-- When the scaled division is exact, `roundNearest` returns the quotient itself. -/
theorem roundNearest_exact (negative : Bool) (num den : Nat) (hn : 0 < num) (hd : 0 < den)
    (hlo : -1022 ≤ floorLog2 num den) (hhi : floorLog2 num den ≤ 1023)
    (hdvd : den * 2 ^ (floorLog2 num den - 52).toNat ∣
      num * 2 ^ (-(floorLog2 num den - 52)).toNat) :
    ∃ (m : Nat) (ex : Int), roundNearest negative num den = JSNumber.finite negative m ex ∧
      (m : ℚ) * (2 : ℚ) ^ ex = (num : ℚ) / den := by
  obtain ⟨m, -, hex, -, hres⟩ := roundNearest_core negative num den hn hd hlo hhi
  obtain ⟨hm, hlt⟩ := hex hdvd
  have two : (2 : ℚ) ≠ 0 := by norm_num
  rw [if_neg (by omega)] at hres
  refine ⟨m, _, hres, ?_⟩
  rw [hm, mul_assoc, ← zpow_add₀ two]
  simp

/-- What `toDouble` returns: an integer of at most 1024 bits with a significand
of at most 53 bits, within half a unit in the last place of its argument. -/
theorem toDouble_spec (n x : Nat) (h : toDouble n = some x) :
    (∃ b : Nat, b ≤ 1024 ∧ x < 2 ^ b) ∧ (∃ M s : Nat, x = M * 2 ^ s ∧ M ≤ 2 ^ 53) ∧
      |(x : ℚ) - n| ≤ (n : ℚ) / 2 ^ 53 ∧ (n < 2 ^ 53 → x = n) ∧ (0 < n → 0 < x) := by
  unfold toDouble at h
  by_cases hsmall : n < 2 ^ 53
  · rw [if_pos hsmall] at h
    obtain rfl : n = x := Option.some.inj h
    refine ⟨⟨53, by omega, hsmall⟩,
      ⟨n, 0, by simp, le_of_lt hsmall⟩, ?_, fun _ => rfl, fun hp => hp⟩
    simp only [sub_self, abs_zero]
    positivity
  · rw [if_neg hsmall] at h
    simp only [] at h
    have hn : 0 < n := by
      have : 0 < 2 ^ 53 := by positivity
      omega
    obtain ⟨hL, hnlo, hnhi⟩ := bitLength_bounds n hn
    obtain ⟨L, hLdef⟩ : ∃ L, L = bitLength n := ⟨_, rfl⟩
    rw [← hLdef] at h hL hnlo hnhi
    have hL54 : 54 ≤ L := by
      by_contra hcon
      have : 2 ^ L ≤ 2 ^ 53 := Nat.pow_le_pow_right (by omega) (by omega)
      omega
    obtain ⟨e, hedef⟩ : ∃ e, e = L - 53 := ⟨_, rfl⟩
    rw [← hedef] at h
    have hLe : L = e + 53 := by omega
    have h2e : 0 < 2 ^ e := by positivity
    have hpowL : 2 ^ L = 2 ^ e * 2 ^ 53 := by rw [hLe, pow_add]
    have hpowL1 : 2 ^ (L - 1) = 2 ^ e * 2 ^ 52 := by
      have : L - 1 = e + 52 := by omega
      rw [this, pow_add]
    have hdm : 2 ^ e * (n / 2 ^ e) + n % 2 ^ e = n := Nat.div_add_mod n (2 ^ e)
    have hr : n % 2 ^ e < 2 ^ e := Nat.mod_lt n h2e
    have hq53 : n / 2 ^ e < 2 ^ 53 := by
      rw [Nat.div_lt_iff_lt_mul h2e]
      rw [hpowL] at hnhi
      linarith
    have hq52 : 2 ^ 52 ≤ n / 2 ^ e := by
      rw [Nat.le_div_iff_mul_le h2e]
      rw [hpowL1] at hnlo
      linarith
    split_ifs at h with hup hbl hbl
    · -- rounded up
      obtain rfl := Option.some.inj h
      have hx0 : 0 < (n / 2 ^ e + 1) * 2 ^ e := Nat.mul_pos (by omega) h2e
      obtain ⟨-, -, hxhi⟩ := bitLength_bounds _ hx0
      have h2r : 2 ^ e ≤ 2 * (n % 2 ^ e) := by
        rcases hup with hlt | ⟨heq, -⟩ <;> omega
      refine ⟨⟨_, hbl, hxhi⟩,
        ⟨n / 2 ^ e + 1, e, rfl, by omega⟩, ?_, fun hc => absurd hc hsmall, fun _ => hx0⟩
      have hxq : (((n / 2 ^ e + 1) * 2 ^ e : ℕ) : ℚ) = (n : ℚ) + ((2 ^ e : ℕ) : ℚ) -
          ((n % 2 ^ e : ℕ) : ℚ) := by
        have : (((n / 2 ^ e + 1) * 2 ^ e : ℕ) : ℚ) + ((n % 2 ^ e : ℕ) : ℚ) =
            (n : ℚ) + ((2 ^ e : ℕ) : ℚ) := by
          have hnat : (n / 2 ^ e + 1) * 2 ^ e + n % 2 ^ e = n + 2 ^ e := by
            have hring : (n / 2 ^ e + 1) * 2 ^ e = 2 ^ e * (n / 2 ^ e) + 2 ^ e := by ring
            rw [hring]
            linarith
          exact_mod_cast hnat
        linarith
      have h2rq : ((2 ^ e : ℕ) : ℚ) ≤ 2 * ((n % 2 ^ e : ℕ) : ℚ) := by exact_mod_cast h2r
      have hrq : ((n % 2 ^ e : ℕ) : ℚ) < ((2 ^ e : ℕ) : ℚ) := by exact_mod_cast hr
      have hnq : ((2 ^ e : ℕ) : ℚ) * 2 ^ 52 ≤ (n : ℚ) := by
        have : 2 ^ e * 2 ^ 52 ≤ n := by rw [← hpowL1]; exact hnlo
        exact_mod_cast this
      have habs : |(n : ℚ) + ((2 ^ e : ℕ) : ℚ) - ((n % 2 ^ e : ℕ) : ℚ) - n| ≤
          ((2 ^ e : ℕ) : ℚ) / 2 := by
        rw [abs_le]
        constructor <;> linarith
      have hhalf : ((2 ^ e : ℕ) : ℚ) / 2 ≤ (n : ℚ) / 2 ^ 53 := by
        rw [div_le_div_iff₀ (by norm_num) (by positivity)]
        have h53 : (2 : ℚ) ^ 53 = 2 * 2 ^ 52 := by norm_num
        rw [h53]
        linarith
      rw [hxq]
      exact le_trans habs hhalf
    · -- rounded down
      obtain rfl := Option.some.inj h
      have hx0 : 0 < n / 2 ^ e * 2 ^ e := Nat.mul_pos (by omega) h2e
      obtain ⟨-, -, hxhi⟩ := bitLength_bounds _ hx0
      have h2r : 2 * (n % 2 ^ e) ≤ 2 ^ e := by
        by_contra hcon
        exact hup (Or.inl (by omega))
      refine ⟨⟨_, hbl, hxhi⟩,
        ⟨n / 2 ^ e, e, rfl, by omega⟩, ?_, fun hc => absurd hc hsmall, fun _ => hx0⟩
      have hxq : ((n / 2 ^ e * 2 ^ e : ℕ) : ℚ) = (n : ℚ) - ((n % 2 ^ e : ℕ) : ℚ) := by
        have : ((n / 2 ^ e * 2 ^ e : ℕ) : ℚ) + ((n % 2 ^ e : ℕ) : ℚ) = (n : ℚ) := by
          have hnat : n / 2 ^ e * 2 ^ e + n % 2 ^ e = n := by
            rw [Nat.mul_comm]
            exact hdm
          exact_mod_cast hnat
        linarith
      have h2rq : 2 * ((n % 2 ^ e : ℕ) : ℚ) ≤ ((2 ^ e : ℕ) : ℚ) := by exact_mod_cast h2r
      have hr0 : (0 : ℚ) ≤ ((n % 2 ^ e : ℕ) : ℚ) := by positivity
      have hnq : ((2 ^ e : ℕ) : ℚ) * 2 ^ 52 ≤ (n : ℚ) := by
        have : 2 ^ e * 2 ^ 52 ≤ n := by rw [← hpowL1]; exact hnlo
        exact_mod_cast this
      have habs : |(n : ℚ) - ((n % 2 ^ e : ℕ) : ℚ) - n| ≤
          ((2 ^ e : ℕ) : ℚ) / 2 := by
        rw [abs_le]
        constructor <;> linarith
      have hhalf : ((2 ^ e : ℕ) : ℚ) / 2 ≤ (n : ℚ) / 2 ^ 53 := by
        rw [div_le_div_iff₀ (by norm_num) (by positivity)]
        have h53 : (2 : ℚ) ^ 53 = 2 * 2 ^ 52 := by norm_num
        rw [h53]
        linarith
      rw [hxq]
      exact le_trans habs hhalf

/-- An integer that is a double is held exactly. -/
theorem ofNum_int (x : Nat) (hx : 0 < x) (hb : ∃ b : Nat, b ≤ 1024 ∧ x < 2 ^ b)
    (hs : ∃ M s : Nat, x = M * 2 ^ s ∧ M ≤ 2 ^ 53) :
    ∃ (m : Nat) (ex : Int), JSNumber.ofNum (Num.int (x : Int)) = JSNumber.finite false m ex ∧
      (m : ℚ) * (2 : ℚ) ^ ex = x ∧ 0 < m := by
  have hneg : ¬ ((x : Int) < 0) := by omega
  have hof : JSNumber.ofNum (Num.int (x : Int)) = roundNearest false x 1 := by
    simp [JSNumber.ofNum, hneg]
  obtain ⟨hlog1, hlog2⟩ := floorLog2_spec x 1 hx Nat.one_pos
  obtain ⟨e, he⟩ : ∃ e, e = floorLog2 x 1 := ⟨_, rfl⟩
  rw [← he] at hlog1 hlog2
  simp only [Nat.cast_one, div_one] at hlog1 hlog2
  have one2 : (1 : ℚ) < 2 := by norm_num
  have hx1 : (1 : ℚ) ≤ x := by exact_mod_cast hx
  have he0 : 0 ≤ e := by
    have : (2 : ℚ) ^ (0 : Int) < (2 : ℚ) ^ (e + 1) := by
      rw [zpow_zero]
      linarith
    have := (zpow_lt_zpow_iff_right₀ one2).mp this
    omega
  obtain ⟨b, hb1024, hxb⟩ := hb
  have he1023 : e ≤ 1023 := by
    have hxb' : (x : ℚ) < (2 : ℚ) ^ (b : Int) := by
      rw [zpow_natCast]
      exact_mod_cast hxb
    have : (2 : ℚ) ^ e < (2 : ℚ) ^ (b : Int) := lt_of_le_of_lt hlog1 hxb'
    have := (zpow_lt_zpow_iff_right₀ one2).mp this
    omega
  have hnat : 2 ^ e.toNat ≤ x := by
    have hcast : ((e.toNat : Int)) = e := Int.toNat_of_nonneg he0
    have : ((2 ^ e.toNat : ℕ) : ℚ) ≤ x := by
      push_cast
      rw [← zpow_natCast, hcast]
      exact hlog1
    exact_mod_cast this
  have hdvd : 1 * 2 ^ (e - 52).toNat ∣ x * 2 ^ (-(e - 52)).toNat := by
    rw [Nat.one_mul]
    rcases le_or_lt e 52 with hsmall | hbig
    · have : (e - 52).toNat = 0 := Int.toNat_eq_zero.mpr (by omega)
      rw [this, pow_zero]
      exact Nat.one_dvd _
    · have h0 : (-(e - 52)).toNat = 0 := Int.toNat_eq_zero.mpr (by omega)
      rw [h0, pow_zero, Nat.mul_one]
      obtain ⟨M, s, hMs, hM⟩ := hs
      have hk : e.toNat = (e - 52).toNat + 52 := by omega
      rcases le_or_lt (e - 52).toNat s with hks | hks
      · rw [hMs]
        exact Dvd.dvd.mul_left (Nat.pow_dvd_pow 2 hks) M
      · -- then the significand is `2^53` and `x` a power of two
        have hle : 2 ^ (s + 53) ≤ 2 ^ e.toNat := Nat.pow_le_pow_right (by omega) (by omega)
        have hupper : x ≤ 2 ^ 53 * 2 ^ s := by
          rw [hMs]
          exact Nat.mul_le_mul_right _ hM
        have hpow : 2 ^ (s + 53) = 2 ^ 53 * 2 ^ s := by rw [pow_add, Nat.mul_comm]
        have hxeq : x = 2 ^ (s + 53) := by omega
        have hee : e.toNat = s + 53 := by
          have h1 : 2 ^ e.toNat ≤ 2 ^ (s + 53) := by omega
          have := (Nat.pow_le_pow_iff_right (by omega)).mp h1
          omega
        rw [hxeq]
        exact Nat.pow_dvd_pow 2 (by omega)
  obtain ⟨m, ex, hres, hval⟩ :=
    roundNearest_exact false x 1 hx Nat.one_pos (by rw [← he]; omega) (by rw [← he]; omega)
      (by rw [← he]; exact hdvd)
  refine ⟨m, ex, by rw [hof, hres], by simpa using hval, ?_⟩
  rcases Nat.eq_zero_or_pos m with h0 | hpos
  · rw [h0] at hval
    simp only [Nat.cast_zero, zero_mul, Nat.cast_one, div_one] at hval
    linarith
  · exact hpos

theorem oneE18_eq : oneE18 = JSNumber.finite false 7812500000000000 7 := by decide

/-- The quotient by `1e18` of a positive integer double: a finite Number within a
relative `2^-53` of the exact quotient. -/
theorem div_oneE18_near (x m : Nat) (ex : Int) (hx : 0 < x)
    (hb : ∃ b : Nat, b ≤ 1024 ∧ x < 2 ^ b)
    (hval : (m : ℚ) * (2 : ℚ) ^ ex = x) (hm : 0 < m) :
    ∃ v : ℚ, ((JSNumber.finite false m ex).div oneE18).toRat = some v ∧
      |v - (x : ℚ) / 10 ^ 18| ≤ (x : ℚ) / 10 ^ 18 / 2 ^ 53 := by
  have one2 : (1 : ℚ) < 2 := by norm_num
  have two : (2 : ℚ) ≠ 0 := by norm_num
  have hx1 : (1 : ℚ) ≤ x := by exact_mod_cast hx
  have hdiv : (JSNumber.finite false m ex).div oneE18 =
      roundNearest false (m * 2 ^ ex.toNat * 2 ^ (-(7 : Int)).toNat)
        (7812500000000000 * 2 ^ (7 : Int).toNat * 2 ^ (-ex).toNat) := by
    rw [oneE18_eq]
    simp [JSNumber.div]
  have hnum : 0 < m * 2 ^ ex.toNat * 2 ^ (-(7 : Int)).toNat := by positivity
  have hden : 0 < 7812500000000000 * 2 ^ (7 : Int).toNat * 2 ^ (-ex).toNat := by positivity
  have hq : ((m * 2 ^ ex.toNat * 2 ^ (-(7 : Int)).toNat : ℕ) : ℚ) /
      ((7812500000000000 * 2 ^ (7 : Int).toNat * 2 ^ (-ex).toNat : ℕ) : ℚ) =
        (x : ℚ) / 10 ^ 18 := by
    have h7a : (-(7 : Int)).toNat = 0 := by decide
    have h7b : (7 : Int).toNat = 7 := by decide
    rw [h7a, h7b, ← hval, ← zpow_split' ex]
    push_cast
    field_simp
    ring
  obtain ⟨hlog1, hlog2⟩ := floorLog2_spec _ _ hnum hden
  obtain ⟨e, he⟩ : ∃ e, e = floorLog2 (m * 2 ^ ex.toNat * 2 ^ (-(7 : Int)).toNat)
      (7812500000000000 * 2 ^ (7 : Int).toNat * 2 ^ (-ex).toNat) := ⟨_, rfl⟩
  rw [← he, hq] at hlog1 hlog2
  have hlo : -1022 ≤ e := by
    have h60 : (2 : ℚ) ^ (-60 : Int) < (x : ℚ) / 10 ^ 18 := by
      rw [lt_div_iff₀ (by positivity)]
      have : (2 : ℚ) ^ (-60 : Int) * 10 ^ 18 < 1 := by
        rw [zpow_neg, zpow_ofNat]
        norm_num
      linarith
    have := (zpow_lt_zpow_iff_right₀ one2).mp (lt_trans h60 hlog2)
    omega
  obtain ⟨b, hb1024, hxb⟩ := hb
  have hhi : e ≤ 1022 := by
    have hxb' : (x : ℚ) < (2 : ℚ) ^ (b : Int) := by
      rw [zpow_natCast]
      exact_mod_cast hxb
    have h59 : (x : ℚ) / 10 ^ 18 < (2 : ℚ) ^ ((b : Int) - 59) := by
      rw [div_lt_iff₀ (by positivity)]
      have hsplit : (2 : ℚ) ^ (b : Int) = (2 : ℚ) ^ ((b : Int) - 59) * 2 ^ 59 := by
        rw [← zpow_natCast (2 : ℚ) 59, ← zpow_add₀ two]
        congr 1
        push_cast
        ring
      have hpos : (0 : ℚ) < (2 : ℚ) ^ ((b : Int) - 59) := by positivity
      have h1859 : (2 : ℚ) ^ 59 ≤ 10 ^ 18 := by norm_num
      calc (x : ℚ) < (2 : ℚ) ^ (b : Int) := hxb'
        _ = (2 : ℚ) ^ ((b : Int) - 59) * 2 ^ 59 := hsplit
        _ ≤ (2 : ℚ) ^ ((b : Int) - 59) * 10 ^ 18 := mul_le_mul_of_nonneg_left h1859 (le_of_lt hpos)
    have := (zpow_lt_zpow_iff_right₀ one2).mp (lt_of_le_of_lt hlog1 h59)
    omega
  obtain ⟨m2, ex2, hres, hnear⟩ :=
    roundNearest_near false _ _ hnum hden (by rw [← he]; exact hlo) (by rw [← he]; exact hhi)
  rw [← he, hq] at hnear
  refine ⟨(m2 : ℚ) * (2 : ℚ) ^ ex2, ?_, ?_⟩
  · rw [hdiv, hres]
    simp [JSNumber.toRat]
  · refine le_trans hnear ?_
    have h53 : (2 : ℚ) ^ (e - 53) = (2 : ℚ) ^ e / 2 ^ 53 := by
      rw [zpow_sub₀ two, zpow_ofNat]
    rw [h53]
    exact div_le_div_of_nonneg_right hlog1 (by positivity)

/-! ## Wei to native units -/

/-- The amount computed from `0x` followed by hexadecimal digits: with `x` the
Number that `parseInt` decodes, a finite Number within a relative `2^-53` of
`x / 10^18`; and `x` is within a relative `2^-53` of the integer denoted, equal
to it below `2^53`. -/
theorem weiToNative_near (h : JSString) (x : Nat) (hne : h ≠ [])
    (hd : ∀ c ∈ h, isRadixDigit 16 c = true) (hx : toDouble (hexValue h) = some x) :
    ∃ v : ℚ, (weiToNative (js "0x" ++ h)).toRat = some v ∧
      |v - (x : ℚ) / 10 ^ 18| ≤ (x : ℚ) / 10 ^ 18 / 2 ^ 53 ∧
      |(x : ℚ) - hexValue h| ≤ (hexValue h : ℚ) / 2 ^ 53 ∧
      (hexValue h < 2 ^ 53 → x = hexValue h) := by
  obtain ⟨hb, hs, herr, hsmall, hpos⟩ := toDouble_spec (hexValue h) x hx
  have hparse : parseInt (js "0x" ++ h) 16 = Num.int (x : Int) := by
    rw [parseInt_hex h hne hd]
    have hx' := hx
    unfold hexValue at hx'
    rw [hx']
  rcases Nat.eq_zero_or_pos x with h0 | hxpos
  · subst h0
    refine ⟨0, ?_, by simp, herr, hsmall⟩
    unfold weiToNative
    rw [hparse, oneE18_eq]
    simp [JSNumber.ofNum, roundNearest, JSNumber.div, JSNumber.toRat]
  · obtain ⟨m, ex, hof, hval, hm⟩ := ofNum_int x hxpos hb hs
    obtain ⟨v, hv, hnear⟩ := div_oneE18_near x m ex hxpos hb hval hm
    refine ⟨v, ?_, hnear, herr, hsmall⟩
    unfold weiToNative
    rw [hparse, hof]
    exact hv

set_option maxRecDepth 8192 in
theorem weiToNative_100 :
    weiToNative (js "0x64") = JSNumber.finite false 8112963841460668 (-106) := by decide

theorem weiToNative_unit :
    weiToNative (js "0xde0b6b3a7640000") = JSNumber.finite false 4503599627370496 (-52) := by
  decide

set_option maxRecDepth 8192 in
theorem toJSString_100 :
    (JSNumber.finite false 8112963841460668 (-106)).toJSString = js "1e-16" := by decide

theorem toJSString_unit :
    (JSNumber.finite false 4503599627370496 (-52)).toJSString = js "1" := by decide

theorem toRat_100 :
    (JSNumber.finite false 8112963841460668 (-106)).toRat = some (2028240960365167 / 2 ^ 104) := by
  simp only [JSNumber.toRat]
  norm_num

theorem toRat_unit : (JSNumber.finite false 4503599627370496 (-52)).toRat = some 1 := by
  simp only [JSNumber.toRat]
  norm_num

/-- What the balance card shows after a successful fetch of a string result. -/
theorem balanceText_fetch (w : World) (address : JSString) (data : JSValue) (h : JSString)
    (hr : getResult data = Except.ok (JSValue.string h)) (hne : h ≠ []) :
    balanceText (fetchAccountBalance w address (Response.json data)).world.display =
      some (weiToNative h).toJSString := by
  have ht : (JSValue.string h).truthy = true := by
    cases h with
    | nil => exact absurd rfl hne
    | cons c t => rfl
  simp [fetchAccountBalance, hr, ht, balanceText, Balance.amount]

/-- C10 as stated fails: for the result `0x64` (100 wei) the normalized amount is
the double `2028240960365167 / 2^104`, which is not `100 / 10^18`, and the
balance card shows `1e-16`, not `0.0000000000000001`. -/
theorem wei_normalization_inexact :
    hexValue (js "64") = 100 ∧
    (weiToNative (js "0x64")).toRat = some (2028240960365167 / 2 ^ 104) ∧
    (2028240960365167 / 2 ^ 104 : ℚ) ≠ 100 / 10 ^ 18 ∧
    balanceText (fetchAccountBalance World.initial sampleAddress
      (Response.json (weiResultBody (js "0x64")))).world.display = some (js "1e-16") ∧
    js "1e-16" ≠ js "0.0000000000000001" := by
  refine ⟨by decide, by rw [weiToNative_100, toRat_100], by norm_num, ?_, by decide⟩
  rw [balanceText_fetch World.initial sampleAddress (weiResultBody (js "0x64")) (js "0x64") rfl
      (by decide),
    weiToNative_100, toJSString_100]

/-- C10, amended. For every hex wei result (`0x` and hexadecimal digits that
`parseInt` decodes to a finite Number `x`), the normalized amount is the double
quotient `x / 1e18`: a finite Number within a relative `2^-53` of `x / 10^18`,
where `x` is the integer denoted when that is below `2^53` and within a
relative `2^-53` of it otherwise. The balance card and the transaction value
show the `Number::toString` text of that amount. In particular
`0xde0b6b3a7640000` normalizes to exactly 1, shown as `1`, and `0x64` to the
double `2028240960365167 / 2^104`, shown as `1e-16`. -/
theorem wei_normalization :
    (∀ (h : JSString) (x : Nat), h ≠ [] → (∀ c ∈ h, isRadixDigit 16 c = true) →
      toDouble (hexValue h) = some x →
        ∃ v : ℚ, (weiToNative (js "0x" ++ h)).toRat = some v ∧
          |v - (x : ℚ) / 10 ^ 18| ≤ (x : ℚ) / 10 ^ 18 / 2 ^ 53 ∧
          |(x : ℚ) - hexValue h| ≤ (hexValue h : ℚ) / 2 ^ 53 ∧
          (hexValue h < 2 ^ 53 → x = hexValue h)) ∧
    (∀ (w : World) (address : JSString) (data : JSValue) (h : JSString),
      getResult data = Except.ok (JSValue.string h) → h ≠ [] →
        balanceText (fetchAccountBalance w address (Response.json data)).world.display =
          some (weiToNative h).toJSString) ∧
    (∀ (d : Display) (props : List (JSString × JSValue)) (h : JSString),
      d.transactionData = JSValue.object props →
      lookupProp (js "value") props = JSValue.string h →
        valueText d = some (weiToNative h).toJSString) ∧
    ((weiToNative (js "0xde0b6b3a7640000")).toRat = some 1 ∧
      (weiToNative (js "0xde0b6b3a7640000")).toJSString = js "1") ∧
    ((weiToNative (js "0x64")).toRat = some (2028240960365167 / 2 ^ 104) ∧
      (weiToNative (js "0x64")).toJSString = js "1e-16") := by
  refine ⟨weiToNative_near, balanceText_fetch, ?_, ?_, ?_⟩
  · intro d props h hd hv
    simp [valueText, hd, hv]
  · rw [weiToNative_unit]
    exact ⟨toRat_unit, toJSString_unit⟩
  · rw [weiToNative_100]
    exact ⟨toRat_100, toJSString_100⟩

end Explorer
